import Mathlib

/-
  Verification of the Indie-Hain distribution backend against its
  natural-language specification.

  The definitions below are a shallow embedding of the Python sources:
    - backend/main.py   (chunk store, manifest validation, sync protocol,
                         review gate, purchase gating)
    - backend/auth.py   (session / refresh-token security)
    - services/uploader_client.py and distribution_client/downloader.py
                        (client-side chunking, upload, reconstruction)

  Machine integers in the source are Python arbitrary-precision ints,
  modelled as Int/Nat.  Byte strings are modelled as List Nat.  SQLite
  tables are modelled as Lean lists of row structures; keyed tables and
  the filesystem are modelled as Option-valued functions.  Fallible
  endpoints return Except HTTPError; handlers that mutate the database
  additionally return the successor state.  SHA-256 is modelled as an
  explicit function parameter (its collision-freeness, where needed, is
  an explicit hypothesis).  Wall-clock time is modelled as Nat seconds.
-/

deriving instance DecidableEq for Except

namespace IndieHain

/-- Raw bytes (Python `bytes`), one Nat per byte. -/
abbrev Bytes := List Nat

/-- A FastAPI `HTTPException(status_code, detail)`. -/
structure HTTPError where
  code : Nat
  msg : String
deriving DecidableEq

/-- Python `str.strip()` whitespace class: the characters for which
CPython's `str.isspace` holds — ASCII 9..13 and space, the ASCII file /
group / record / unit separators 28..31, NEL (U+0085), NBSP (U+00A0),
and the Unicode space characters U+1680, U+2000..U+200A, U+2028,
U+2029, U+202F, U+205F, U+3000. -/
def isPySpace (c : Char) : Bool :=
  ((9 ≤ c.toNat) && (c.toNat ≤ 13)) ||
  ((28 ≤ c.toNat) && (c.toNat ≤ 31)) ||
  (c.toNat == 32) || (c.toNat == 0x85) || (c.toNat == 0xA0) ||
  (c.toNat == 0x1680) ||
  ((0x2000 ≤ c.toNat) && (c.toNat ≤ 0x200A)) ||
  (c.toNat == 0x2028) || (c.toNat == 0x2029) || (c.toNat == 0x202F) ||
  (c.toNat == 0x205F) || (c.toNat == 0x3000)

/-- Python `str.strip()` on the character list of a string. -/
def stripChars (l : List Char) : List Char :=
  ((l.dropWhile isPySpace).reverse.dropWhile isPySpace).reverse

/-- Python `str.split(sep)` for a one-character separator, on character
lists: always returns at least one (possibly empty) group. -/
def splitOnChar (sep : Char) : List Char → List (List Char)
  | [] => [[]]
  | c :: rest =>
    match splitOnChar sep rest with
    | [] => [[]]
    | g :: gs => if c == sep then [] :: g :: gs else (c :: g) :: gs

/-- Python ASCII `str.lower()` on one character. -/
def asciiLowerChar (c : Char) : Char :=
  if ('A' ≤ c) && (c ≤ 'Z') then Char.ofNat (c.toNat + 32) else c

/-- Python `str.lower()` (ASCII range, which is all the source compares). -/
def asciiLower (s : String) : String :=
  String.mk (s.toList.map asciiLowerChar)

/-- Join path segments with slashes (`"/".join(parts)`). -/
def joinSlash : List String → String
  | [] => ""
  | [p] => p
  | p :: rest => p ++ "/" ++ joinSlash rest

/-- Lowercase-hex digit, as accepted by `SHA256_RE = ^[a-f0-9]{64}$`. -/
def isLowerHexChar (c : Char) : Bool :=
  (('a' ≤ c) && (c ≤ 'f')) || (('0' ≤ c) && (c ≤ '9'))

/-- Python `re.match` against a pattern anchored as `^...$` (without
MULTILINE): the body must match the whole string, except that `$` also
matches just before a single newline that ends the string. -/
def pyDollarMatch (core : List Char → Bool) (l : List Char) : Bool :=
  core l || ((l.getLast? == some '\n') && core l.dropLast)

/-- The body of `SHA256_RE`: exactly 64 lowercase-hex characters. -/
def sha256Core (l : List Char) : Bool :=
  (l.length == 64) && l.all isLowerHexChar

/-- `_require_sha256` / `SHA256_RE.match`: 64 lowercase-hex characters,
optionally followed by one trailing newline (Python `$`). -/
def sha256Ok (s : String) : Bool :=
  pyDollarMatch sha256Core s.toList

/-- Character class of `SLUG_RE = ^[a-z0-9-]{1,64}$`. -/
def isSlugChar (c : Char) : Bool :=
  (('a' ≤ c) && (c ≤ 'z')) || (('0' ≤ c) && (c ≤ '9')) || (c == '-')

/-- The body of `SLUG_RE`: 1 to 64 slug characters. -/
def slugCore (l : List Char) : Bool :=
  (1 ≤ l.length) && (l.length ≤ 64) && l.all isSlugChar

/-- `_require_safe_slug` / `SLUG_RE.match` (Python `$` also accepts one
trailing newline). -/
def slugOk (s : String) : Bool :=
  pyDollarMatch slugCore s.toList

/-- Character class of `COMP_RE = ^[A-Za-z0-9._-]{1,64}$`. -/
def isCompChar (c : Char) : Bool :=
  (('A' ≤ c) && (c ≤ 'Z')) || (('a' ≤ c) && (c ≤ 'z')) ||
  (('0' ≤ c) && (c ≤ '9')) || (c == '.') || (c == '_') || (c == '-')

/-- The body of `COMP_RE`: 1 to 64 component characters. -/
def compCore (l : List Char) : Bool :=
  (1 ≤ l.length) && (l.length ≤ 64) && l.all isCompChar

/-- `_require_safe_comp` / `COMP_RE.match` (version / platform /
channel; Python `$` also accepts one trailing newline). -/
def compOk (s : String) : Bool :=
  pyDollarMatch compCore s.toList

/-- `models.ChunkInfo`: one chunk reference inside a file entry. -/
structure ChunkInfo where
  offset : Int
  size : Int
  sha256 : String
deriving DecidableEq

/-- `models.FileEntry`. -/
structure FileEntry where
  path : String
  size : Int
  sha256 : String
  chunks : List ChunkInfo
deriving DecidableEq

/-- `models.Manifest`. -/
structure Manifest where
  app : String
  version : String
  platform : String
  channel : String
  total_size : Int
  files : List FileEntry
  chunk_base : String
  signature : Option String := none
deriving DecidableEq

/-- The parts of a relative `PurePosixPath`: split on slashes, with empty
segments and single-dot segments collapsed (pathlib collapses spurious
slashes and `.` components but keeps `..`). -/
def pathlibParts (raw : List Char) : List String :=
  ((splitOnChar '/' raw).map String.mk).filter (fun p => p != "" && p != ".")

/-- `_normalize_manifest_file_path` from backend/main.py: strips the path,
turns backslashes into slashes, rejects empty and absolute paths, rejects
`..` segments and a drive-letter-like first segment, and returns the
slash-joined normalized parts. -/
def normalizeManifestFilePath (path : String) : Except HTTPError String :=
  let raw : List Char :=
    (stripChars path.toList).map (fun c => if c == '\\' then '/' else c)
  if raw.isEmpty || (raw.headD ' ' == '/') then .error ⟨400, "Invalid file path"⟩
  else
    match pathlibParts raw with
    | [] => .error ⟨400, "Invalid file path"⟩
    | p0 :: rest =>
      if (p0 :: rest).any (fun p => p == "" || p == "." || p == "..") then
        .error ⟨400, "Invalid file path"⟩
      else if p0.toList.contains ':' then .error ⟨400, "Invalid file path"⟩
      else
        let normalized := joinSlash (p0 :: rest)
        if normalized == "" then .error ⟨400, "Invalid file path"⟩
        else .ok normalized

/-- The inner chunk loop of `_validate_manifest_files`: walks a file
entry's chunk list keeping the running expected offset, checking hash
shape, nonnegative size and contiguity; returns the final offset. -/
def validateEntryChunks : List ChunkInfo → Int → Except HTTPError Int
  | [], expected => .ok expected
  | ch :: rest, expected =>
    if sha256Ok ch.sha256 = false then .error ⟨400, "Invalid sha256"⟩
    else if ch.size < 0 then .error ⟨400, "Invalid chunk size"⟩
    else if ch.offset ≠ expected then .error ⟨400, "Invalid chunk offsets"⟩
    else validateEntryChunks rest (expected + ch.size)

/-- The file loop of `_validate_manifest_files`: normalizes each path
(writing it back into the entry, as the source mutates `entry.path`),
rejects duplicates against the `seen_paths` set, checks the whole-file
hash shape, runs the chunk loop, compares the file size with the final
offset, and accumulates the total size. -/
def validateFilesLoop : List FileEntry → List String → Int →
    Except HTTPError (List FileEntry × Int)
  | [], _, total => .ok ([], total)
  | entry :: rest, seen, total =>
    match normalizeManifestFilePath entry.path with
    | .error e => .error e
    | .ok np =>
      if seen.contains np then .error ⟨400, "Duplicate file path"⟩
      else if sha256Ok entry.sha256 = false then .error ⟨400, "Invalid sha256"⟩
      else
        match validateEntryChunks entry.chunks 0 with
        | .error e => .error e
        | .ok endOff =>
          if entry.size ≠ endOff then .error ⟨400, "File size mismatch"⟩
          else
            match validateFilesLoop rest (np :: seen) (total + entry.size) with
            | .error e => .error e
            | .ok (rest2, t) => .ok ({ entry with path := np } :: rest2, t)

/-- `_validate_manifest_files`: validates all file entries and then the
declared total size.  Returns the manifest with normalized paths (the
source normalizes in place). -/
def validateManifestFiles (m : Manifest) : Except HTTPError Manifest :=
  match validateFilesLoop m.files [] 0 with
  | .error e => .error e
  | .ok (files2, total) =>
    if m.total_size ≠ total then .error ⟨400, "Manifest total_size mismatch"⟩
    else .ok { m with files := files2 }

/-- Sum of a list of integers. -/
def intSum (l : List Int) : Int := l.foldr (· + ·) 0

/-- The contiguous offset sequence starting at `e` induced by a size
list: each offset is `e` plus the sum of the preceding sizes. -/
def offsetsFrom (e : Int) : List Int → List Int
  | [] => []
  | s :: rest => e :: offsetsFrom (e + s) rest

/-- The offsets declared by a file entry's chunks. -/
def chunkOffsets (f : FileEntry) : List Int := f.chunks.map ChunkInfo.offset

/-- The sizes declared by a file entry's chunks. -/
def chunkSizes (f : FileEntry) : List Int := f.chunks.map ChunkInfo.size

/-- The normalized path of a file entry, as an Option. -/
def npOf (f : FileEntry) : Option String :=
  (normalizeManifestFilePath f.path).toOption

/-- Strictly increasing adjacent pairs of an integer list. -/
def strictlyIncreasingB : List Int → Bool
  | [] => true
  | [_] => true
  | a :: b :: rest => (a < b) && strictlyIncreasingB (b :: rest)

/-- Spec predicate, per file, as the claim words it (C6 as stated):
path normalizes, every chunk hash is well-formed fixed-length hex
(read strictly: exactly 64 hex characters), offsets form a contiguous
run starting at 0 that is also strictly increasing, and the chunk
sizes sum to the declared file size. -/
def specFileOkClaimed (f : FileEntry) : Prop :=
  (normalizeManifestFilePath f.path).isOk = true ∧
  (∀ c ∈ f.chunks, sha256Core c.sha256.toList = true) ∧
  chunkOffsets f = offsetsFrom 0 (chunkSizes f) ∧
  strictlyIncreasingB (chunkOffsets f) = true ∧
  f.size = intSum (chunkSizes f)

/-- Spec predicate for the whole manifest, as the claim words it. -/
def specManifestAcceptedClaimed (m : Manifest) : Prop :=
  (∀ f ∈ m.files, specFileOkClaimed f) ∧
  (m.files.map npOf).Nodup ∧
  m.total_size = intSum (m.files.map FileEntry.size)

/-- Amended spec predicate, per file: path normalizes, the whole-file
hash and every chunk hash match the backend's SHA-256 regex under
Python `re.match` (64 lowercase-hex characters, optionally followed by
one trailing newline), chunk sizes are nonnegative, offsets form the
contiguous run starting at 0 (hence non-decreasing; strictly
increasing only between chunks of positive size), and the chunk sizes
sum to the declared file size. -/
def specFileOk (f : FileEntry) : Prop :=
  (normalizeManifestFilePath f.path).isOk = true ∧
  sha256Ok f.sha256 = true ∧
  (∀ c ∈ f.chunks, sha256Ok c.sha256 = true ∧ 0 ≤ c.size) ∧
  chunkOffsets f = offsetsFrom 0 (chunkSizes f) ∧
  f.size = intSum (chunkSizes f)

/-- Amended spec predicate for the whole manifest. -/
def specManifestAccepted (m : Manifest) : Prop :=
  (∀ f ∈ m.files, specFileOk f) ∧
  (m.files.map npOf).Nodup ∧
  m.total_size = intSum (m.files.map FileEntry.size)

instance (f : FileEntry) : Decidable (specFileOkClaimed f) :=
  inferInstanceAs (Decidable
    ((normalizeManifestFilePath f.path).isOk = true ∧
     (∀ c ∈ f.chunks, sha256Core c.sha256.toList = true) ∧
     chunkOffsets f = offsetsFrom 0 (chunkSizes f) ∧
     strictlyIncreasingB (chunkOffsets f) = true ∧
     f.size = intSum (chunkSizes f)))

instance (m : Manifest) : Decidable (specManifestAcceptedClaimed m) :=
  inferInstanceAs (Decidable
    ((∀ f ∈ m.files, specFileOkClaimed f) ∧
     (m.files.map npOf).Nodup ∧
     m.total_size = intSum (m.files.map FileEntry.size)))

instance (f : FileEntry) : Decidable (specFileOk f) :=
  inferInstanceAs (Decidable
    ((normalizeManifestFilePath f.path).isOk = true ∧
     sha256Ok f.sha256 = true ∧
     (∀ c ∈ f.chunks, sha256Ok c.sha256 = true ∧ 0 ≤ c.size) ∧
     chunkOffsets f = offsetsFrom 0 (chunkSizes f) ∧
     f.size = intSum (chunkSizes f)))

instance (m : Manifest) : Decidable (specManifestAccepted m) :=
  inferInstanceAs (Decidable
    ((∀ f ∈ m.files, specFileOk f) ∧
     (m.files.map npOf).Nodup ∧
     m.total_size = intSum (m.files.map FileEntry.size)))

/-- An `apps` table row (db.py schema).  `price` and `sale_percent` are
SQL REALs (Python floats); they are modelled over ℚ and no claim proved
here depends on float rounding behaviour. -/
structure AppRow where
  id : Int
  slug : String
  title : String
  ownerUserId : Option Int
  isApproved : Int
  price : Option ℚ
  salePercent : Option ℚ
deriving DecidableEq

/-- A `builds` table row. -/
structure BuildRow where
  id : Int
  appId : Int
  version : String
  platform : String
  channel : String
  status : String
  manifestUrl : Option String
deriving DecidableEq

/-- A `submissions` table row. -/
structure SubmissionRow where
  id : Int
  userId : Int
  appSlug : String
  version : String
  platform : String
  channel : String
  manifestUrl : String
  status : String
  note : Option String
deriving DecidableEq

/-- A `purchases` table row (`purchased_at` kept as an opaque string). -/
structure PurchaseRow where
  id : Int
  appId : Int
  userId : Int
  price : ℚ
  purchasedAt : String
deriving DecidableEq

/-- A `chunks` table row (`hash` is the primary key). -/
structure ChunkRow where
  hash : String
  size : Int
  storagePath : String
  refCount : Int
deriving DecidableEq

/-- The authenticated caller as produced by `require_user`:
`user_id` and lowercased `role`. -/
structure AuthUser where
  userId : Int
  role : String
deriving DecidableEq

/-- The server's mutable state: the SQLite tables plus the two storage
trees.  `chunkDisk` models the sharded chunk files under
`storage/chunks` keyed by hash; `chunkWrites` counts the
`p.write_bytes(body)` calls per hash (instrumentation used to state the
write-once property); `manifestFS` models the manifest JSON files under
`storage/` keyed by their relative path. -/
structure ServerState where
  apps : List AppRow
  builds : List BuildRow
  submissions : List SubmissionRow
  purchases : List PurchaseRow
  chunksTable : List ChunkRow
  chunkDisk : String → Option Bytes
  chunkWrites : String → Nat
  manifestFS : String → Option Manifest

/-- `hex_shard` / `p.relative_to(STORAGE_CHUNKS.parent)`: the stored
relative path `chunks/aa/bb/hash`. -/
def chunkStoragePath (h : String) : String :=
  joinSlash ["chunks", String.mk (h.toList.take 2),
    String.mk ((h.toList.drop 2).take 2), h]

/-- `role or "user"` then `.lower()`, as `_require_download_access`
computes the caller's effective role. -/
def effRole (role : String) : String :=
  if role == "" then "user" else asciiLower role

/-- Result rows of `_require_download_access`. -/
structure AccessInfo where
  appId : Int
  ownerUserId : Int
  isApproved : Int
deriving DecidableEq

/-- `_require_download_access` from backend/main.py: slug check, app
lookup, then admin-or-owner shortcut, else a purchase row is required. -/
def requireDownloadAccess (s : ServerState) (slug : String) (u : AuthUser) :
    Except HTTPError AccessInfo :=
  if slugOk slug = false then .error ⟨400, "Invalid slug"⟩
  else
    match s.apps.find? (fun a => a.slug == slug) with
    | none => .error ⟨404, "App not found"⟩
    | some a =>
      let ownerId := a.ownerUserId.getD 0
      if effRole u.role == "admin" || u.userId == ownerId then
        .ok ⟨a.id, ownerId, a.isApproved⟩
      else
        match s.purchases.find? (fun p => p.appId == a.id && p.userId == u.userId) with
        | none => .error ⟨403, "Purchase required"⟩
        | some _ => .ok ⟨a.id, ownerId, a.isApproved⟩

/-- `ORDER BY b.id DESC LIMIT 1`: the row with the greatest id. -/
def latestById (l : List BuildRow) : Option BuildRow :=
  l.foldl (fun acc b =>
    match acc with
    | none => some b
    | some x => if b.id > x.id then some b else some x) none

/-- Truthiness of an optional string (Python: `None` and `""` are falsy). -/
def optTruthy (o : Option String) : Bool :=
  match o with
  | none => false
  | some s => s != ""

/-- `_latest_ready_manifest_rel`: most recent ready build for
(slug, platform, channel), requiring a truthy `manifest_url`. -/
def latestReadyManifestRel (s : ServerState) (slug platform channel : String) :
    Except HTTPError String :=
  if slugOk slug = false then .error ⟨400, "Invalid slug"⟩
  else if compOk platform = false then .error ⟨400, "Invalid platform"⟩
  else if compOk channel = false then .error ⟨400, "Invalid channel"⟩
  else
    let cands := s.builds.filter (fun b =>
      b.platform == platform && b.channel == channel && b.status == "ready" &&
      s.apps.any (fun a => a.id == b.appId && a.slug == slug))
    match latestById cands with
    | none => .error ⟨404, "No manifest"⟩
    | some b =>
      match b.manifestUrl with
      | none => .error ⟨404, "No manifest"⟩
      | some url => if url == "" then .error ⟨404, "No manifest"⟩ else .ok url

/-- `_manifest_rel_for_build`: ready build for an exact
(slug, version, platform, channel). -/
def manifestRelForBuild (s : ServerState) (slug version platform channel : String) :
    Except HTTPError String :=
  if slugOk slug = false then .error ⟨400, "Invalid slug"⟩
  else if compOk version = false then .error ⟨400, "Invalid version"⟩
  else if compOk platform = false then .error ⟨400, "Invalid platform"⟩
  else if compOk channel = false then .error ⟨400, "Invalid channel"⟩
  else
    let cands := s.builds.filter (fun b =>
      b.version == version && b.platform == platform && b.channel == channel &&
      b.status == "ready" &&
      s.apps.any (fun a => a.id == b.appId && a.slug == slug))
    match latestById cands with
    | none => .error ⟨404, "No manifest for build"⟩
    | some b =>
      match b.manifestUrl with
      | none => .error ⟨404, "No manifest for build"⟩
      | some url =>
        if url == "" then .error ⟨404, "No manifest for build"⟩ else .ok url

/-- `_load_ready_manifest`: resolve the manifest's relative path and read
it from storage.  (The JSON-decode failure branch of the source cannot
arise here because `manifestFS` stores structured manifests.) -/
def loadReadyManifest (s : ServerState) (slug platform channel : String)
    (version : Option String) : Except HTTPError (Manifest × String) :=
  match (match version with
         | some v => manifestRelForBuild s slug v platform channel
         | none => latestReadyManifestRel s slug platform channel) with
  | .error e => .error e
  | .ok rel =>
    match s.manifestFS rel with
    | none => .error ⟨404, "Manifest missing on disk"⟩
    | some m => .ok (m, rel)

/-- `_manifest_contains_chunk`. -/
def manifestContainsChunk (m : Manifest) (h : String) : Bool :=
  m.files.any (fun f => f.chunks.any (fun c => c.sha256 == h))

/-- `GET /api/manifest/...` (`get_manifest`): download authorization then
manifest resolution for the latest ready build. -/
def getManifest (s : ServerState) (slug platform channel : String) (u : AuthUser) :
    Except HTTPError Manifest :=
  match requireDownloadAccess s slug u with
  | .error e => .error e
  | .ok _ =>
    match loadReadyManifest s slug platform channel none with
    | .error e => .error e
    | .ok (m, _) => .ok m

/-- `GET /storage/chunks/...` (`get_chunk`): hash shape check, download
authorization, manifest resolution for the exact build, manifest
membership check, then the stored bytes. -/
def getChunk (s : ServerState) (h slug version platform channel : String)
    (u : AuthUser) : Except HTTPError Bytes :=
  if sha256Ok h = false then .error ⟨400, "Invalid sha256"⟩
  else
    match requireDownloadAccess s slug u with
    | .error e => .error e
    | .ok _ =>
      match loadReadyManifest s slug platform channel (some version) with
      | .error e => .error e
      | .ok (m, _) =>
        if manifestContainsChunk m h = false then
          .error ⟨404, "Chunk not in manifest"⟩
        else
          match s.chunkDisk h with
          | none => .error ⟨404, "Chunk not found"⟩
          | some b => .ok b

/-- Point update of an Option-valued keyed map. -/
def mapUpdate {α : Type} (f : String → Option α) (key : String) (v : α) :
    String → Option α :=
  fun r => if r == key then some v else f r

/-- Point increment of a Nat-valued keyed counter. -/
def bumpCount (f : String → Nat) (key : String) : String → Nat :=
  fun r => if r == key then f r + 1 else f r

/-- `require_dev`: role must be dev or admin. -/
def requireDev (u : AuthUser) : Except HTTPError AuthUser :=
  if u.role != "dev" && u.role != "admin" then
    .error ⟨403, "Developer role required"⟩
  else .ok u

/-- `require_admin`: role must be admin. -/
def requireAdmin (u : AuthUser) : Except HTTPError AuthUser :=
  if u.role != "admin" then .error ⟨403, "Admin role required"⟩ else .ok u

/-- `_require_app_owner_by_slug`. -/
def requireAppOwnerBySlug (s : ServerState) (slug : String) (userId : Int) :
    Except HTTPError AppRow :=
  match s.apps.find? (fun a => a.slug == slug) with
  | none => .error ⟨404, "App not found"⟩
  | some a =>
    if a.ownerUserId.getD 0 ≠ userId then .error ⟨403, "Not your app"⟩
    else .ok a

/-- `_require_build_owner`: build joined with its app; the joined row is
absent when either is missing. -/
def requireBuildOwner (s : ServerState) (buildId : Int) (userId : Int) :
    Except HTTPError BuildRow :=
  match s.builds.find? (fun b => b.id == buildId) with
  | none => .error ⟨404, "Build not found"⟩
  | some b =>
    match s.apps.find? (fun a => a.id == b.appId) with
    | none => .error ⟨404, "Build not found"⟩
    | some a =>
      if a.ownerUserId.getD 0 ≠ userId then .error ⟨403, "Not your app"⟩
      else .ok b

/-- `POST /api/dev/chunk/{hash}` (`upload_chunk`): verifies the claimed
hash against the body, writes the bytes unconditionally, then either
increments `ref_count` or inserts a fresh chunk row.  `hfn` is SHA-256
hex. -/
def uploadChunk (hfn : Bytes → String) (s : ServerState) (u : AuthUser)
    (h : String) (body : Bytes) : Except HTTPError Unit × ServerState :=
  match requireDev u with
  | .error e => (.error e, s)
  | .ok _ =>
    if sha256Ok h = false then (.error ⟨400, "Invalid sha256"⟩, s)
    else if hfn body ≠ h then (.error ⟨400, "Hash mismatch"⟩, s)
    else
      let s1 : ServerState := { s with
        chunkDisk := mapUpdate s.chunkDisk h body,
        chunkWrites := bumpCount s.chunkWrites h }
      match s1.chunksTable.find? (fun r => r.hash == h) with
      | some _ =>
        (.ok (), { s1 with chunksTable := s1.chunksTable.map (fun r =>
          if r.hash == h then { r with refCount := r.refCount + 1 } else r) })
      | none =>
        (.ok (), { s1 with chunksTable :=
          s1.chunksTable ++ [⟨h, (body.length : Int), chunkStoragePath h, 1⟩] })

/-- `POST /api/dev/builds/{id}/missing-chunks` (`missing_chunks`):
owner-gated; each hash must be well-formed; returns those whose sharded
chunk file does not exist. -/
def missingChunks (s : ServerState) (u : AuthUser) (buildId : Int)
    (hashes : List String) : Except HTTPError (List String) :=
  match requireDev u with
  | .error e => .error e
  | .ok _ =>
    match requireBuildOwner s buildId u.userId with
    | .error e => .error e
    | .ok _ =>
      if hashes.all (fun h => sha256Ok h) = false then
        .error ⟨400, "Invalid sha256"⟩
      else .ok (hashes.filter (fun h => (s.chunkDisk h).isNone))

/-- The deterministic manifest location
`apps/{app}/builds/{version}/{platform}/{channel}/manifest.json`. -/
def manifestRelPath (m : Manifest) : String :=
  "apps/" ++ m.app ++ "/builds/" ++ m.version ++ "/" ++ m.platform ++ "/" ++
    m.channel ++ "/manifest.json"

/-- Next AUTOINCREMENT id for submissions. -/
def nextSubmissionId (s : ServerState) : Int :=
  (s.submissions.map SubmissionRow.id).foldl max 0 + 1

/-- Next AUTOINCREMENT id for purchases. -/
def nextPurchaseId (s : ServerState) : Int :=
  (s.purchases.map PurchaseRow.id).foldl max 0 + 1

/-- `POST /api/dev/builds/{id}/finalize` (`finalize_build`): field shape
checks, manifest validation (which normalizes file paths in place),
ownership, the app-slug mismatch check, then persists the manifest,
marks the build ready and opens a pending submission.  Note the source
compares only `manifest.app` against the build's app slug. -/
def finalizeBuild (s : ServerState) (u : AuthUser) (buildId : Int)
    (manifest : Manifest) : Except HTTPError String × ServerState :=
  match requireDev u with
  | .error e => (.error e, s)
  | .ok _ =>
    if slugOk manifest.app = false then (.error ⟨400, "Invalid slug"⟩, s)
    else if compOk manifest.version = false then (.error ⟨400, "Invalid version"⟩, s)
    else if compOk manifest.platform = false then (.error ⟨400, "Invalid platform"⟩, s)
    else if compOk manifest.channel = false then (.error ⟨400, "Invalid channel"⟩, s)
    else
      match validateManifestFiles manifest with
      | .error e => (.error e, s)
      | .ok m2 =>
        match requireBuildOwner s buildId u.userId with
        | .error e => (.error e, s)
        | .ok b =>
          match s.apps.find? (fun a => a.id == b.appId) with
          | none => (.error ⟨404, "App not found"⟩, s)
          | some a =>
            if m2.app ≠ a.slug then (.error ⟨400, "Manifest app mismatch"⟩, s)
            else
              let rel := manifestRelPath m2
              let s1 : ServerState :=
                { s with manifestFS := mapUpdate s.manifestFS rel m2 }
              let s2 : ServerState := { s1 with builds := s1.builds.map (fun x =>
                if x.id == buildId then
                  { x with status := "ready", manifestUrl := some rel }
                else x) }
              let s3 : ServerState := { s2 with submissions := s2.submissions ++
                [⟨nextSubmissionId s2, u.userId, m2.app, m2.version, m2.platform,
                  m2.channel, rel, "pending", none⟩] }
              (.ok rel, s3)

/-- The server state after a successful `finalize_build`: manifest
persisted, build marked ready, pending submission appended. -/
def finalizedState (s : ServerState) (u : AuthUser) (buildId : Int)
    (m : Manifest) : ServerState :=
  { s with
    manifestFS := mapUpdate s.manifestFS (manifestRelPath m) m,
    builds := s.builds.map (fun x =>
      if x.id == buildId then
        { x with status := "ready", manifestUrl := some (manifestRelPath m) }
      else x),
    submissions := s.submissions ++
      [⟨nextSubmissionId s, u.userId, m.app, m.version, m.platform, m.channel,
        manifestRelPath m, "pending", none⟩] }

/-- `POST /api/admin/submissions/{sid}/approve` (`approve_submission`):
only a pending submission can be approved; approval also flips the
app's `is_approved` flag on. -/
def approveSubmission (s : ServerState) (u : AuthUser) (sid : Int) :
    Except HTTPError Unit × ServerState :=
  match requireAdmin u with
  | .error e => (.error e, s)
  | .ok _ =>
    match s.submissions.find? (fun x => x.id == sid) with
    | none => (.error ⟨404, "Not found"⟩, s)
    | some sub =>
      if sub.status ≠ "pending" then (.error ⟨400, "Already processed"⟩, s)
      else
        (.ok (), { s with
          apps := s.apps.map (fun a =>
            if a.slug == sub.appSlug then { a with isApproved := 1 } else a),
          submissions := s.submissions.map (fun x =>
            if x.id == sid then { x with status := "approved" } else x) })

/-- `POST /api/admin/submissions/{sid}/reject` (`reject_submission`):
sets the status to rejected with a note.  The source performs no status
check before the update. -/
def rejectSubmission (s : ServerState) (u : AuthUser) (sid : Int)
    (note : Option String) : Except HTTPError Unit × ServerState :=
  match requireAdmin u with
  | .error e => (.error e, s)
  | .ok _ =>
    match s.submissions.find? (fun x => x.id == sid) with
    | none => (.error ⟨404, "Not found"⟩, s)
    | some _ =>
      (.ok (), { s with submissions := s.submissions.map (fun x =>
        if x.id == sid then { x with status := "rejected", note := note } else x) })

/-- `POST /api/dev/apps/{slug}/unpublish` (`unpublish_app`): owner-gated;
clears the app's `is_approved` flag. -/
def unpublishApp (s : ServerState) (u : AuthUser) (slug : String) :
    Except HTTPError Unit × ServerState :=
  match requireDev u with
  | .error e => (.error e, s)
  | .ok _ =>
    if slugOk slug = false then (.error ⟨400, "Invalid slug"⟩, s)
    else
      match requireAppOwnerBySlug s slug u.userId with
      | .error e => (.error e, s)
      | .ok _ =>
        (.ok (), { s with apps := s.apps.map (fun a =>
          if a.slug == slug then { a with isApproved := 0 } else a) })

/-- Two-decimal rounding of `_effective_price`.  The source rounds
Python floats (`round(x, 2)`, banker's rounding); over ℚ we use
Mathlib's `round`.  No claim proved here depends on the rounding mode. -/
def round2 (q : ℚ) : ℚ := ((round (q * 100) : ℤ) : ℚ) / 100

/-- `_effective_price`. -/
def effectivePrice (price salePercent : ℚ) : ℚ :=
  round2 ((max 0 price) * ((100 - min 100 (max 0 salePercent)) / 100))

/-- Outcome of `report_purchase`. -/
inductive PurchaseOutcome where
  | alreadyReported
  | reported (price : ℚ)
deriving DecidableEq

/-- `POST /api/user/purchases/report` (`report_purchase`): rejects bad
ids and unapproved apps; if a purchase row for (app, user) already
exists it reports success without inserting; otherwise inserts one row
at the effective price. -/
def reportPurchase (s : ServerState) (u : AuthUser) (appId : Int)
    (now : String) : Except HTTPError PurchaseOutcome × ServerState :=
  if appId ≤ 0 then (.error ⟨400, "Invalid app_id"⟩, s)
  else
    match s.apps.find? (fun a => a.id == appId) with
    | none => (.error ⟨404, "App not found"⟩, s)
    | some a =>
      if a.isApproved ≠ 1 then (.error ⟨400, "App not available"⟩, s)
      else
        match s.purchases.find? (fun p => p.appId == appId && p.userId == u.userId) with
        | some _ => (.ok .alreadyReported, s)
        | none =>
          let price := effectivePrice (a.price.getD 0) (a.salePercent.getD 0)
          (.ok (.reported price), { s with purchases := s.purchases ++
            [⟨nextPurchaseId s, appId, u.userId, price, now⟩] })

/-- A `sessions` table row (auth.py / db.py).  Timestamps are modelled
as Nat seconds; `refreshExpiresAt`/`revokedAt` are nullable. -/
structure SessionRow where
  userId : Int
  deviceId : Option String
  refreshTokenHash : String
  createdAt : Nat
  lastUsedAt : Nat
  refreshExpiresAt : Option Nat
  revokedAt : Option Nat
deriving DecidableEq

/-- The sessions table keyed by the opaque session id. -/
def SessionsMap := String → Option SessionRow

/-- Point update of the sessions table. -/
def sessUpdate (db : SessionsMap) (key : String) (v : SessionRow) : SessionsMap :=
  fun x => if x == key then some v else db x

/-- A minimal `users` row for `_user_by_id`. -/
structure UserRec where
  id : Int
  role : String
deriving DecidableEq

/-- `REFRESH_TTL_DAYS = 30`, as seconds (`timedelta(days=30)`). -/
def refreshTtlSeconds : Nat := 30 * 86400

/-- Helper of `_parse_refresh_token`: Python `split(".", 1)` — the
characters before the first dot and everything after it; `none` when
there is no dot. -/
def splitFirstDot : List Char → Option (List Char × List Char)
  | [] => none
  | c :: rest =>
    if c == '.' then some ([], rest)
    else
      match splitFirstDot rest with
      | none => none
      | some (a, b) => some (c :: a, b)

/-- `_parse_refresh_token`: requires a dot and nonempty session id and
secret parts. -/
def parseRefreshToken (tok : String) : Option (String × String) :=
  match splitFirstDot tok.toList with
  | none => none
  | some (a, b) =>
    if a.isEmpty || b.isEmpty then none
    else some (String.mk a, String.mk b)

/-- `_build_refresh_token`. -/
def buildRefreshToken (sessionId secretPart : String) : String :=
  sessionId ++ "." ++ secretPart

/-- The expiry guard of `refresh_tokens`: a stored expiry at or before
`now` means the token is expired (`_now() >= fromisoformat(...)`). -/
def sessionExpiredAt (row : SessionRow) (now : Nat) : Bool :=
  match row.refreshExpiresAt with
  | some e => e ≤ now
  | none => false

/-- The device guard of `refresh_tokens`: fails only when both the
presented and the stored device ids are truthy and differ. -/
def deviceMismatch (presented stored : Option String) : Bool :=
  optTruthy presented && optTruthy stored &&
    (presented.getD "") != (stored.getD "")

/-- Successful result of `refresh_tokens` (access-token issuance is
outside the refresh-rotation claims and not modelled). -/
structure RefreshResult where
  sessionId : String
  newRefreshToken : String
  userId : Int
deriving DecidableEq

/-- `refresh_tokens` from backend/auth.py.  `hfn` is
`_hash_refresh_secret` (HMAC-SHA256 under the fixed server secret);
`users` is the users table for `_user_by_id`; `newSecret` stands for the
freshly drawn `secrets.token_urlsafe(32)`.  On a hash mismatch for an
otherwise valid session the session is revoked and reuse is reported;
on a match the secret hash is rotated and the expiry extended. -/
def refreshTokens (hfn : String → String) (users : Int → Option UserRec)
    (db : SessionsMap) (now : Nat) (newSecret : String)
    (refreshToken : String) (deviceId : Option String) :
    Except HTTPError RefreshResult × SessionsMap :=
  match parseRefreshToken refreshToken with
  | none => (.error ⟨401, "Invalid refresh token"⟩, db)
  | some (sessionId, secretPart) =>
    match db sessionId with
    | none => (.error ⟨401, "Invalid refresh token"⟩, db)
    | some row =>
      if row.revokedAt.isSome then (.error ⟨401, "Invalid refresh token"⟩, db)
      else if sessionExpiredAt row now then
        (.error ⟨401, "Refresh token expired"⟩, db)
      else if deviceMismatch deviceId row.deviceId then
        (.error ⟨401, "Device mismatch"⟩, db)
      else if hfn secretPart ≠ row.refreshTokenHash then
        (.error ⟨401, "Refresh reuse detected"⟩,
          sessUpdate db sessionId { row with revokedAt := some now })
      else
        match users row.userId with
        | none => (.error ⟨401, "Invalid refresh token"⟩, db)
        | some _ =>
          let row2 : SessionRow := { row with
            refreshTokenHash := hfn newSecret,
            lastUsedAt := now,
            refreshExpiresAt := some (now + refreshTtlSeconds) }
          (.ok ⟨sessionId, buildRefreshToken sessionId newSecret, row.userId⟩,
            sessUpdate db sessionId row2)

/-- `CHUNK_SIZE = 8 * 1024 * 1024` (uploader_client.py). -/
def chunkSize : Nat := 8 * 1024 * 1024

/-- A local build tree: the files `root.rglob("*")` yields, as
(relative posix path, contents) in traversal order. -/
abbrev Tree := List (String × Bytes)

/-- `chunk_file` / the read loop of `build_manifest`: the successive
`CHUNK_SIZE` windows of a file's bytes (empty file gives no chunks). -/
def chunkFile (l : Bytes) : List Bytes :=
  if l.isEmpty then []
  else l.take chunkSize :: chunkFile (l.drop chunkSize)
termination_by l.length
decreasing_by
  simp only [List.length_drop]
  have hl : l ≠ [] := by
    intro h
    simp [h] at *
  have : 0 < l.length := List.length_pos.mpr hl
  have : 0 < chunkSize := by decide
  omega

/-- The chunk descriptors `build_manifest` assembles: offset, size and
hash per window, with the running offset. -/
def chunkInfosFrom (hfn : Bytes → String) (off : Int) :
    List Bytes → List ChunkInfo
  | [] => []
  | b :: rest => ⟨off, (b.length : Int), hfn b⟩ :: chunkInfosFrom hfn (off + b.length) rest

/-- `build_manifest` from uploader_client.py.  The whole-file hash is
fed chunk by chunk, which is SHA-256 of the concatenation of the
windows, i.e. of the file's bytes. -/
def buildManifest (hfn : Bytes → String) (root : Tree)
    (appSlug version platform channel : String) : Manifest :=
  { app := appSlug
    version := version
    platform := platform
    channel := channel
    total_size := intSum (root.map (fun pc => ((pc.2.length : Int))))
    files := root.map (fun pc =>
      { path := pc.1
        size := (pc.2.length : Int)
        sha256 := hfn pc.2
        chunks := chunkInfosFrom hfn 0 (chunkFile pc.2) })
    chunk_base := "apps/" ++ appSlug ++ "/builds/" ++ version ++ "/" ++
      platform ++ "/" ++ channel ++ "/chunks"
    signature := none }

/-- All chunk windows of all files of a tree, in upload order. -/
def allChunks (root : Tree) : List Bytes :=
  root.flatMap (fun pc => chunkFile pc.2)

/-- The upload phase of `upload_folder`: ask the server which of the
manifest's hashes are missing, then walk the tree again and upload every
window whose hash is in the missing set (one `upload_chunk` call each,
aborting on the first server error). -/
def uploadTree (hfn : Bytes → String) (s0 : ServerState) (u : AuthUser)
    (buildId : Int) (root : Tree) : Except HTTPError ServerState :=
  match missingChunks s0 u buildId ((allChunks root).map hfn) with
  | .error e => .error e
  | .ok missing =>
    (allChunks root).foldlM (fun st b =>
      if missing.contains (hfn b) then
        match uploadChunk hfn st u (hfn b) b with
        | (.error e, _) => .error e
        | (.ok _, st2) => pure st2
      else pure st) s0

/-- `_safe_output_path` from distribution_client/downloader.py, up to
the install-root resolution: strip, backslash→slash, reject empty and
absolute paths, split dropping empty segments, reject `.` and `..`
segments.  (The final `is_relative_to` containment check cannot fire
once `..` segments are excluded.)  Returns the path segments under the
install root. -/
def safeOutputParts (relPath : String) : Except HTTPError (List String) :=
  let raw : List Char :=
    (stripChars relPath.toList).map (fun c => if c == '\\' then '/' else c)
  if raw.isEmpty || (raw.headD ' ' == '/') then
    .error ⟨0, "Invalid path in manifest"⟩
  else
    let parts := ((splitOnChar '/' raw).map String.mk).filter (fun p => p != "")
    if parts.isEmpty || parts.any (fun p => p == "." || p == "..") then
      .error ⟨0, "Invalid path in manifest"⟩
    else .ok parts

/-- `_download_chunk`: fetch the bytes for a hash over the wire (`fetch`
stands for the HTTP GET against `/storage/chunks/{h}`) and verify the
hash before trusting them.  Client-side RuntimeErrors are modelled with
code 0. -/
def downloadChunk (hfn : Bytes → String)
    (fetch : String → Except HTTPError Bytes) (h : String) :
    Except HTTPError Bytes :=
  match fetch h with
  | .error e => .error e
  | .ok data =>
    if hfn data ≠ h then .error ⟨0, "Chunk hash mismatch"⟩ else .ok data

/-- The parallel download phase of `install_from_manifest`: one
`_download_chunk` per referenced hash, collected into `data_map`. -/
def buildDataMap (hfn : Bytes → String)
    (fetch : String → Except HTTPError Bytes) :
    List String → (String → Option Bytes) →
    Except HTTPError (String → Option Bytes)
  | [], acc => .ok acc
  | h :: rest, acc =>
    match downloadChunk hfn fetch h with
    | .error e => .error e
    | .ok data => buildDataMap hfn fetch rest (mapUpdate acc h data)

/-- The reassembly phase of `install_from_manifest`: per file, validate
the output path, concatenate the downloaded chunks in declared order,
and re-verify the whole-file hash.  Returns (written path, bytes) per
file; a missing `data_map` key is the Python `KeyError`. -/
def reassembleFiles (hfn : Bytes → String) (dataMap : String → Option Bytes) :
    List FileEntry → Except HTTPError (List (String × Bytes))
  | [] => .ok []
  | f :: rest =>
    match safeOutputParts f.path with
    | .error e => .error e
    | .ok parts =>
      match (f.chunks.mapM (fun c =>
        match dataMap c.sha256 with
        | none => .error ⟨0, "KeyError"⟩
        | some b => .ok b) : Except HTTPError (List Bytes)) with
      | .error e => .error e
      | .ok pieces =>
        let content := pieces.flatten
        if hfn content ≠ f.sha256 then .error ⟨0, "Hash mismatch"⟩
        else
          match reassembleFiles hfn dataMap rest with
          | .error e => .error e
          | .ok out => .ok ((joinSlash parts, content) :: out)

/-- `install_from_manifest`: slug/version guards, chunk download into
`data_map`, then reassembly with end-to-end verification.  `fetch` is
the server's chunk endpoint for the manifest's coordinates. -/
def installFromManifest (hfn : Bytes → String)
    (fetch : String → Except HTTPError Bytes) (m : Manifest) :
    Except HTTPError (List (String × Bytes)) :=
  if m.app == "" then .error ⟨0, "Manifest app slug missing"⟩
  else if m.version == "" then .error ⟨0, "Manifest version missing"⟩
  else
    let chunkHashes := m.files.flatMap (fun f => f.chunks.map ChunkInfo.sha256)
    match buildDataMap hfn fetch chunkHashes (fun _ => none) with
    | .error e => .error e
    | .ok dataMap => reassembleFiles hfn dataMap m.files

/-! Concrete fixtures used by witnesses and counterexamples. -/

/-- A 64-character lowercase hex string. -/
def fxHashA : String := String.mk (List.replicate 64 'a')

/-- A degenerate hash function (collision-freeness is irrelevant where
this is used). -/
def fxConstHashA : Bytes → String := fun _ => fxHashA

/-- The empty server state. -/
def fxEmpty : ServerState :=
  { apps := [], builds := [], submissions := [], purchases := [],
    chunksTable := [], chunkDisk := fun _ => none,
    chunkWrites := fun _ => 0, manifestFS := fun _ => none }

/-- A developer caller (app owner in the fixtures). -/
def fxDev : AuthUser := ⟨7, "dev"⟩

/-- An admin caller. -/
def fxAdmin : AuthUser := ⟨99, "admin"⟩

/-- A plain user caller who is neither owner nor admin. -/
def fxBuyer : AuthUser := ⟨5, "user"⟩

/-- An app owned by user 7, not approved. -/
def fxApp : AppRow := ⟨1, "game", "Game", some 7, 0, none, none⟩

/-- Same app, approved. -/
def fxAppApproved : AppRow := ⟨1, "game", "Game", some 7, 1, none, none⟩

/-- The deterministic manifest location of the fixture build. -/
def fxRel : String := "apps/game/builds/1.0.0/windows/stable/manifest.json"

/-- An empty (zero files) valid manifest for the fixture app. -/
def fxManifest0 : Manifest :=
  ⟨"game", "1.0.0", "windows", "stable", 0, [],
    "apps/game/builds/1.0.0/windows/stable/chunks", none⟩

/-- A ready build of the fixture app with its manifest persisted. -/
def fxBuildReady : BuildRow := ⟨1, 1, "1.0.0", "windows", "stable", "ready", some fxRel⟩

/-- A draft build of the fixture app. -/
def fxBuildDraft : BuildRow := ⟨1, 1, "1.0.0", "windows", "stable", "draft", none⟩

/-- The pending submission opened for the fixture build. -/
def fxSubPending : SubmissionRow :=
  ⟨1, 7, "game", "1.0.0", "windows", "stable", fxRel, "pending", none⟩

/-- State for the approval-gating trace: unapproved app, ready build,
persisted manifest, pending submission, no purchases. -/
def fxStateC4 : ServerState :=
  { fxEmpty with
    apps := [fxApp]
    builds := [fxBuildReady]
    submissions := [fxSubPending]
    manifestFS := mapUpdate (fun _ => none) fxRel fxManifest0 }

/-- State for the finalize-mismatch counterexample: unapproved app and a
draft build at version 1.0.0. -/
def fxStateC5 : ServerState := { fxEmpty with apps := [fxApp], builds := [fxBuildDraft] }

/-- A valid empty manifest whose version (2.0.0) differs from the
fixture build's version (1.0.0). -/
def fxManifestV2 : Manifest := ⟨"game", "2.0.0", "windows", "stable", 0, [], "cb", none⟩

/-- A manifest containing a zero-size chunk: offsets are 0, 0 —
contiguous but not strictly increasing. -/
def fxManifestC6 : Manifest :=
  ⟨"game", "1.0.0", "windows", "stable", 5,
    [⟨"a", 5, fxHashA, [⟨0, 0, fxHashA⟩, ⟨0, 5, fxHashA⟩]⟩], "cb", none⟩

/-- State with an approved app and no purchases. -/
def fxStateC10 : ServerState := { fxEmpty with apps := [fxAppApproved] }

/-- A sessions table with one active session whose stored secret hash is
"old" (under the identity hash fixture). -/
def fxSessionsC2 : SessionsMap :=
  fun x => if x == "sid1" then some ⟨1, none, "old", 0, 0, some 100, none⟩ else none

/-- A users table with the single session owner. -/
def fxUsersC2 : Int → Option UserRec := fun i => if i == 1 then some ⟨1, "user"⟩ else none

/-- The identity function standing in for `_hash_refresh_secret` in
closed witnesses. -/
def fxIdHash : String → String := fun s => s

/-! Theorems.  Each claim Cn of the specification is settled by one
theorem below (with a witness for hypotheses, and a counterexample where
the claim as stated fails on the code). -/

/-- C10: reporting a purchase is idempotent per (user, app): a call that
inserted a row makes any later identical call return `already_reported`
without touching the table; any single call either leaves the purchases
table unchanged or appends exactly one row for the caller's pair, and
only when no row for that pair existed; and a call answering
`already_reported` changes nothing. -/
theorem C10_report_purchase_idempotent (s : ServerState) (u : AuthUser)
    (appId : Int) (now now2 : String) :
    (∀ q s2, reportPurchase s u appId now = (.ok (.reported q), s2) →
      reportPurchase s2 u appId now2 = (.ok .alreadyReported, s2)) ∧
    (∀ out s2, reportPurchase s u appId now = (out, s2) →
      s2.purchases = s.purchases ∨
      (∃ row, s2.purchases = s.purchases ++ [row] ∧ row.appId = appId ∧
        row.userId = u.userId ∧
        s.purchases.find? (fun p => p.appId == appId && p.userId == u.userId) = none)) ∧
    (∀ s2, reportPurchase s u appId now = (.ok .alreadyReported, s2) → s2 = s) := by
  refine ⟨?_, ?_, ?_⟩
  · intro q s2 h
    unfold reportPurchase at h ⊢
    split at h
    · simp at h
    · rename_i hpos
      split at h
      · simp at h
      · rename_i a hfind
        split at h
        · simp at h
        · rename_i happr
          split at h
          · simp at h
          · rename_i hnone
            simp only [Prod.mk.injEq] at h
            obtain ⟨-, hs2⟩ := h
            rw [if_neg hpos]
            have happs : s2.apps = s.apps := by rw [← hs2]
            have hp2 : s2.purchases =
                s.purchases ++ [⟨nextPurchaseId s, appId, u.userId,
                  effectivePrice (a.price.getD 0) (a.salePercent.getD 0), now⟩] := by
              rw [← hs2]
            simp only [happs, hfind]
            rw [if_neg happr]
            rw [hp2, List.find?_append, hnone]
            simp
  · intro out s2 h
    unfold reportPurchase at h
    split at h
    · simp only [Prod.mk.injEq] at h; left; rw [← h.2]
    · split at h
      · simp only [Prod.mk.injEq] at h; left; rw [← h.2]
      · rename_i a hfind
        split at h
        · simp only [Prod.mk.injEq] at h; left; rw [← h.2]
        · split at h
          · simp only [Prod.mk.injEq] at h; left; rw [← h.2]
          · rename_i hnone
            simp only [Prod.mk.injEq] at h
            right
            exact ⟨_, by rw [← h.2], rfl, rfl, hnone⟩
  · intro s2 h
    unfold reportPurchase at h
    split at h
    · simp at h
    · split at h
      · simp at h
      · split at h
        · simp at h
        · split at h
          · simp only [Prod.mk.injEq] at h; rw [← h.2]
          · simp only [Prod.mk.injEq] at h
            exact absurd h.1 (by simp)

/-- C10 witness: on a concrete state with one approved app, a first call
inserts, the second answers `already_reported` with the table unchanged. -/
theorem C10_witness :
    reportPurchase (reportPurchase fxStateC10 fxBuyer 1 "t1").2 fxBuyer 1 "t2" =
      (.ok .alreadyReported, (reportPurchase fxStateC10 fxBuyer 1 "t1").2) :=
  (C10_report_purchase_idempotent fxStateC10 fxBuyer 1 "t1" "t2").1
    (effectivePrice 0 0) (reportPurchase fxStateC10 fxBuyer 1 "t1").2 rfl

/-- C8 counterexample: submission processing is not terminal.  On a
concrete pending submission, Approve moves it to approved — and a later
Reject still succeeds and moves the approved submission to rejected,
so the status of a processed submission changes again. -/
theorem C8_counterexample :
    (approveSubmission fxStateC4 fxAdmin 1).1 = .ok () ∧
    ((approveSubmission fxStateC4 fxAdmin 1).2.submissions.map
      SubmissionRow.status) = ["approved"] ∧
    (rejectSubmission (approveSubmission fxStateC4 fxAdmin 1).2 fxAdmin 1 none).1 =
      .ok () ∧
    ((rejectSubmission (approveSubmission fxStateC4 fxAdmin 1).2 fxAdmin 1
      none).2.submissions.map SubmissionRow.status) = ["rejected"] := by
  refine ⟨rfl, by decide, rfl, by decide⟩

/-- C8 amended: Approve succeeds only on a pending submission, failing
NotFound/AlreadyProcessed otherwise and leaving the state unchanged, so
no Approve call ever changes a processed submission; Reject, however,
performs no status check — it succeeds on any existing submission and
sets its status to rejected, so an approved submission can later become
rejected. -/
theorem C8_amended (s : ServerState) (u : AuthUser) (sid : Int)
    (hadmin : u.role = "admin") :
    ((approveSubmission s u sid).1.isOk = true →
      ∃ sub, s.submissions.find? (fun x => x.id == sid) = some sub ∧
        sub.status = "pending") ∧
    (∀ sub, s.submissions.find? (fun x => x.id == sid) = some sub →
      sub.status ≠ "pending" →
      approveSubmission s u sid = (.error ⟨400, "Already processed"⟩, s)) ∧
    (s.submissions.find? (fun x => x.id == sid) = none →
      approveSubmission s u sid = (.error ⟨404, "Not found"⟩, s)) ∧
    (∀ sub note, s.submissions.find? (fun x => x.id == sid) = some sub →
      (rejectSubmission s u sid note).1 = .ok () ∧
      ((rejectSubmission s u sid note).2.submissions.find?
          (fun x => x.id == sid)) =
        some { sub with status := "rejected", note := note }) := by
  have hra : requireAdmin u = .ok u := by simp [requireAdmin, hadmin]
  refine ⟨?_, ?_, ?_, ?_⟩
  · intro h
    unfold approveSubmission at h
    simp only [hra] at h
    split at h
    · simp [Except.isOk, Except.toBool] at h
    · rename_i sub hfind
      split at h
      · simp [Except.isOk, Except.toBool] at h
      · rename_i hstat
        exact ⟨sub, hfind, not_not.mp hstat⟩
  · intro sub hfind hstat
    unfold approveSubmission
    simp only [hra, hfind]
    simp only [if_pos hstat]
  · intro hnone
    unfold approveSubmission
    simp only [hra, hnone]
  · intro sub note hfind
    unfold rejectSubmission
    simp only [hra, hfind]
    refine ⟨trivial, ?_⟩
    have hid : (fun x : SubmissionRow =>
        ((fun y : SubmissionRow =>
          if y.id == sid then { y with status := "rejected", note := note }
          else y) x).id == sid) = (fun x : SubmissionRow => x.id == sid) := by
      funext x
      by_cases hx : x.id == sid
      · simp [hx]
      · simp [hx]
    simp only [List.find?_map, Function.comp_def]
    rw [show (fun x : SubmissionRow =>
        (if x.id == sid then { x with status := "rejected", note := note }
          else x).id == sid) = (fun x : SubmissionRow => x.id == sid) from hid]
    rw [hfind]
    have hsubid : (sub.id == sid) = true := by
      have := List.find?_some hfind
      simpa using this
    have hideq : sub.id = sid := by simpa using hsubid
    simp [hideq]

/-- C8 witness: on the concrete pending submission, Reject succeeds and
the stored row becomes rejected. -/
theorem C8_witness :
    (rejectSubmission fxStateC4 fxAdmin 1 none).1 = .ok () ∧
    ((rejectSubmission fxStateC4 fxAdmin 1 none).2.submissions.find?
      (fun x => x.id == 1)) =
      some { fxSubPending with status := "rejected", note := none } :=
  ((C8_amended fxStateC4 fxAdmin 1 rfl).2.2.2) fxSubPending none (by decide)

/-- Validation only rewrites the file list (normalized paths); the
header fields are unchanged. -/
theorem validateManifestFiles_preserves {m m2 : Manifest}
    (h : validateManifestFiles m = .ok m2) :
    m2.app = m.app ∧ m2.version = m.version ∧ m2.platform = m.platform ∧
    m2.channel = m.channel ∧ m2.total_size = m.total_size := by
  unfold validateManifestFiles at h
  split at h
  · exact absurd h (by simp)
  · rename_i r heq
    split at h
    · exact absurd h (by simp)
    · simp only [Except.ok.injEq] at h
      subst h
      exact ⟨rfl, rfl, rfl, rfl, rfl⟩

/-- C5 counterexample: on a concrete draft build at version 1.0.0, a
manifest declaring version 2.0.0 (same app) is accepted by Finalize: the
build is marked ready and a pending submission is created, although the
manifest's version differs from the Build's. -/
theorem C5_counterexample :
    fxManifestV2.version ≠ fxBuildDraft.version ∧
    (finalizeBuild fxStateC5 fxDev 1 fxManifestV2).1 =
      .ok "apps/game/builds/2.0.0/windows/stable/manifest.json" ∧
    ((finalizeBuild fxStateC5 fxDev 1 fxManifestV2).2.builds.map
      BuildRow.status) = ["ready"] ∧
    ((finalizeBuild fxStateC5 fxDev 1 fxManifestV2).2.submissions.map
      SubmissionRow.status) = ["pending"] := by
  refine ⟨by decide, by decide, by decide, by decide⟩

/-- C5 amended: Finalize rejects (leaving the build untouched and
creating no submission) when the manifest's declared app differs from
the slug of the Build's app; the manifest's version, platform and
channel are not compared against the Build's fields, so a request
passing the shape and validation checks succeeds whenever the app slug
matches, even if those fields differ. -/
theorem C5_amended (s : ServerState) (u : AuthUser) (buildId : Int)
    (manifest : Manifest) (b : BuildRow) (a : AppRow)
    (hb : requireBuildOwner s buildId u.userId = .ok b)
    (ha : s.apps.find? (fun x => x.id == b.appId) = some a) :
    (manifest.app ≠ a.slug →
      (finalizeBuild s u buildId manifest).1.isOk = false ∧
      (finalizeBuild s u buildId manifest).2 = s) ∧
    (requireDev u = .ok u →
     slugOk manifest.app = true →
     compOk manifest.version = true →
     compOk manifest.platform = true →
     compOk manifest.channel = true →
     (validateManifestFiles manifest).isOk = true →
     manifest.app = a.slug →
     (finalizeBuild s u buildId manifest).1.isOk = true) := by
  constructor
  · intro hne
    unfold finalizeBuild
    split
    · exact ⟨by simp [Except.isOk, Except.toBool], rfl⟩
    · split
      · exact ⟨by simp [Except.isOk, Except.toBool], rfl⟩
      · split
        · exact ⟨by simp [Except.isOk, Except.toBool], rfl⟩
        · split
          · exact ⟨by simp [Except.isOk, Except.toBool], rfl⟩
          · split
            · exact ⟨by simp [Except.isOk, Except.toBool], rfl⟩
            · split
              · exact ⟨by simp [Except.isOk, Except.toBool], rfl⟩
              · rename_i m2 hval
                simp only [hb, ha]
                have happ : m2.app = manifest.app :=
                  (validateManifestFiles_preserves hval).1
                rw [if_pos (by rw [happ]; exact hne)]
                exact ⟨by simp [Except.isOk, Except.toBool], rfl⟩
  · intro hdev hslug hver hplat hchan hval happ
    obtain ⟨m2, hm2⟩ : ∃ m2, validateManifestFiles manifest = .ok m2 := by
      cases hv : validateManifestFiles manifest with
      | error e => rw [hv] at hval; simp [Except.isOk, Except.toBool] at hval
      | ok m2 => exact ⟨m2, rfl⟩
    have happ2 : m2.app = a.slug := by
      rw [(validateManifestFiles_preserves hm2).1, happ]
    unfold finalizeBuild
    simp only [hdev, hslug, hver, hplat, hchan, hm2, hb, ha]
    simp [Except.isOk, Except.toBool, happ2]

/-- C5 witness: the concrete mismatch-version finalize of the
counterexample state is accepted via the amended theorem's success
direction. -/
theorem C5_witness :
    (finalizeBuild fxStateC5 fxDev 1 fxManifestV2).1.isOk = true :=
  (C5_amended fxStateC5 fxDev 1 fxManifestV2 fxBuildDraft fxApp
    (by decide) (by decide)).2 (by decide) (by decide) (by decide)
    (by decide) (by decide) (by decide) (by decide)

/-- Successful download authorization implies admin, owner or purchaser
for the app stored under the requested slug. -/
theorem requireDownloadAccess_ok_implies (s : ServerState) (slug : String)
    (u : AuthUser) (r : AccessInfo)
    (h : requireDownloadAccess s slug u = .ok r) :
    ∃ a, s.apps.find? (fun x => x.slug == slug) = some a ∧
      (effRole u.role = "admin" ∨ u.userId = a.ownerUserId.getD 0 ∨
        (s.purchases.find? (fun p =>
          p.appId == a.id && p.userId == u.userId)).isSome = true) := by
  unfold requireDownloadAccess at h
  split at h
  · exact absurd h (by simp)
  · split at h
    · exact absurd h (by simp)
    · rename_i a hfind
      refine ⟨a, hfind, ?_⟩
      by_cases hcond :
          (effRole u.role == "admin" || u.userId == a.ownerUserId.getD 0) = true
      · simp only [Bool.or_eq_true, beq_iff_eq] at hcond
        rcases hcond with hc | hc
        · exact Or.inl hc
        · exact Or.inr (Or.inl hc)
      · cases hp : s.purchases.find? (fun p =>
            p.appId == a.id && p.userId == u.userId) with
        | some q => exact Or.inr (Or.inr rfl)
        | none =>
          have hcond2 :
              (effRole u.role == "admin" || u.userId == a.ownerUserId.getD 0) =
                false := by simpa using hcond
          simp only [hcond2, hp] at h
          simp at h

/-- A non-admin non-owner without a purchase row is denied with 403
Purchase required. -/
theorem requireDownloadAccess_denied (s : ServerState) (slug : String)
    (u : AuthUser) (a : AppRow)
    (happ : s.apps.find? (fun x => x.slug == slug) = some a)
    (hslug : slugOk slug = true)
    (hrole : effRole u.role ≠ "admin")
    (howner : u.userId ≠ a.ownerUserId.getD 0)
    (hnop : s.purchases.find? (fun p =>
      p.appId == a.id && p.userId == u.userId) = none) :
    requireDownloadAccess s slug u = .error ⟨403, "Purchase required"⟩ := by
  unfold requireDownloadAccess
  simp only [hslug, happ]
  rw [if_neg (by simp)]
  rw [if_neg ?_]
  · rw [hnop]
  · simp only [Bool.or_eq_true, beq_iff_eq]
    rintro (hc | hc)
    · exact hrole hc
    · exact howner hc

/-- Any failure of download authorization leaves `getManifest` failing. -/
theorem getManifest_ok_access (s : ServerState) (slug platform channel : String)
    (u : AuthUser) (m : Manifest)
    (h : getManifest s slug platform channel u = .ok m) :
    ∃ r, requireDownloadAccess s slug u = .ok r := by
  unfold getManifest at h
  split at h
  · exact absurd h (by simp)
  · rename_i r heq
    exact ⟨r, heq⟩

/-- Any failure of download authorization leaves `getChunk` failing. -/
theorem getChunk_ok_access (s : ServerState)
    (h slug version platform channel : String) (u : AuthUser) (b : Bytes)
    (hc : getChunk s h slug version platform channel u = .ok b) :
    ∃ r, requireDownloadAccess s slug u = .ok r := by
  unfold getChunk at hc
  split at hc
  · exact absurd hc (by simp)
  · split at hc
    · exact absurd hc (by simp)
    · rename_i r heq
      exact ⟨r, heq⟩

/-- C3: for an existing app, fetching the manifest or a chunk succeeds
only for an admin, the owner, or a caller with a purchase record for
that app; a caller that is none of these is refused with 403 Purchase
required and receives no manifest or bytes. -/
theorem C3_download_authorization (s : ServerState)
    (slug version platform channel h : String) (u : AuthUser) (a : AppRow)
    (happ : s.apps.find? (fun x => x.slug == slug) = some a)
    (hslug : slugOk slug = true) :
    ((∃ m, getManifest s slug platform channel u = .ok m) →
      effRole u.role = "admin" ∨ u.userId = a.ownerUserId.getD 0 ∨
        (s.purchases.find? (fun p =>
          p.appId == a.id && p.userId == u.userId)).isSome = true) ∧
    ((∃ b, getChunk s h slug version platform channel u = .ok b) →
      effRole u.role = "admin" ∨ u.userId = a.ownerUserId.getD 0 ∨
        (s.purchases.find? (fun p =>
          p.appId == a.id && p.userId == u.userId)).isSome = true) ∧
    (effRole u.role ≠ "admin" → u.userId ≠ a.ownerUserId.getD 0 →
      s.purchases.find? (fun p => p.appId == a.id && p.userId == u.userId) = none →
      getManifest s slug platform channel u = .error ⟨403, "Purchase required"⟩ ∧
      (sha256Ok h = true →
        getChunk s h slug version platform channel u =
          .error ⟨403, "Purchase required"⟩)) := by
  refine ⟨?_, ?_, ?_⟩
  · rintro ⟨m, hm⟩
    obtain ⟨r, hr⟩ := getManifest_ok_access s slug platform channel u m hm
    obtain ⟨a2, ha2, hdisj⟩ := requireDownloadAccess_ok_implies s slug u r hr
    rw [happ] at ha2
    cases ha2
    exact hdisj
  · rintro ⟨b, hb⟩
    obtain ⟨r, hr⟩ := getChunk_ok_access s h slug version platform channel u b hb
    obtain ⟨a2, ha2, hdisj⟩ := requireDownloadAccess_ok_implies s slug u r hr
    rw [happ] at ha2
    cases ha2
    exact hdisj
  · intro hrole howner hnop
    have hden := requireDownloadAccess_denied s slug u a happ hslug hrole howner hnop
    constructor
    · unfold getManifest
      rw [hden]
    · intro hhex
      unfold getChunk
      simp only [hhex, hden]
      rfl

/-- C3 witness: on the concrete unapproved-app state with no purchases,
the plain user is refused the manifest and the chunk with 403. -/
theorem C3_witness :
    getManifest fxStateC4 "game" "windows" "stable" fxBuyer =
      .error ⟨403, "Purchase required"⟩ ∧
    getChunk fxStateC4 fxHashA "game" "1.0.0" "windows" "stable" fxBuyer =
      .error ⟨403, "Purchase required"⟩ :=
  ⟨((C3_download_authorization fxStateC4 "game" "1.0.0" "windows" "stable"
      fxHashA fxBuyer fxApp (by decide) (by decide)).2.2 (by decide) (by decide)
      (by decide)).1,
   ((C3_download_authorization fxStateC4 "game" "1.0.0" "windows" "stable"
      fxHashA fxBuyer fxApp (by decide) (by decide)).2.2 (by decide) (by decide)
      (by decide)).2 (by decide)⟩

/-- C4 counterexample: approval does not gate download eligibility at
request time.  Concrete reachable trace: admin approves the pending
submission, the plain user reports a purchase (possible only while
approved), the owner unpublishes the app (is_approved back to 0) — and
the same non-owner, non-admin user still gets the manifest while the app
is not approved. -/
theorem C4_counterexample :
    (approveSubmission fxStateC4 fxAdmin 1).1 = .ok () ∧
    (reportPurchase (approveSubmission fxStateC4 fxAdmin 1).2 fxBuyer 1 "t").1.isOk
      = true ∧
    (unpublishApp
      (reportPurchase (approveSubmission fxStateC4 fxAdmin 1).2 fxBuyer 1 "t").2
      fxDev "game").1 = .ok () ∧
    ((unpublishApp
      (reportPurchase (approveSubmission fxStateC4 fxAdmin 1).2 fxBuyer 1 "t").2
      fxDev "game").2.apps.map AppRow.isApproved) = [0] ∧
    effRole fxBuyer.role ≠ "admin" ∧
    fxBuyer.userId ≠ fxApp.ownerUserId.getD 0 ∧
    getManifest
      (unpublishApp
        (reportPurchase (approveSubmission fxStateC4 fxAdmin 1).2 fxBuyer 1 "t").2
        fxDev "game").2
      "game" "windows" "stable" fxBuyer = .ok fxManifest0 := by
  refine ⟨rfl, by decide, by decide, by decide, by decide, by decide, by decide⟩

/-- C4 amended: the review gate controls purchase creation, not the
download check itself.  A non-owner, non-admin caller's GetManifest
fails whenever no purchase row links them to the app (in particular in
any state where they have never been able to purchase), and
report_purchase refuses to create a purchase row unless the app is
currently approved; approval is not re-checked at download time, so an
existing purchaser keeps access after the app is unpublished. -/
theorem C4_amended (s : ServerState) (slug : String) (u : AuthUser)
    (a : AppRow) (appId : Int) (now : String)
    (happ : s.apps.find? (fun x => x.slug == slug) = some a) :
    (effRole u.role ≠ "admin" → u.userId ≠ a.ownerUserId.getD 0 →
      s.purchases.find? (fun p => p.appId == a.id && p.userId == u.userId) = none →
      ∀ platform channel,
        (getManifest s slug platform channel u).isOk = false) ∧
    (∀ out s2, reportPurchase s u appId now = (out, s2) →
      s2.purchases ≠ s.purchases →
      ∃ ar, s.apps.find? (fun x => x.id == appId) = some ar ∧
        ar.isApproved = 1) := by
  constructor
  · intro hrole howner hnop platform channel
    cases hok : (getManifest s slug platform channel u).isOk with
    | false => rfl
    | true =>
      exfalso
      obtain ⟨m, hm⟩ : ∃ m, getManifest s slug platform channel u = .ok m := by
        cases hg : getManifest s slug platform channel u with
        | error e => rw [hg] at hok; simp [Except.isOk, Except.toBool] at hok
        | ok m => exact ⟨m, rfl⟩
      obtain ⟨r, hr⟩ := getManifest_ok_access s slug platform channel u m hm
      obtain ⟨a2, ha2, hdisj⟩ := requireDownloadAccess_ok_implies s slug u r hr
      rw [happ] at ha2
      cases ha2
      rcases hdisj with hc | hc | hc
      · exact hrole hc
      · exact howner hc
      · rw [hnop] at hc
        simp at hc
  · intro out s2 h hne
    unfold reportPurchase at h
    split at h
    · simp only [Prod.mk.injEq] at h
      exact absurd (by rw [← h.2]) hne
    · split at h
      · simp only [Prod.mk.injEq] at h
        exact absurd (by rw [← h.2]) hne
      · rename_i ar hfind
        split at h
        · simp only [Prod.mk.injEq] at h
          exact absurd (by rw [← h.2]) hne
        · rename_i happr
          exact ⟨ar, hfind, not_not.mp happr⟩

/-- C4 witness: in the pre-purchase state the plain user's GetManifest
fails, and a purchase report on the same (unapproved) state cannot
change the purchases table. -/
theorem C4_witness :
    (getManifest fxStateC4 "game" "windows" "stable" fxBuyer).isOk = false :=
  (C4_amended fxStateC4 "game" fxBuyer fxApp 1 "t" (by decide)).1
    (by decide) (by decide) (by decide) "windows" "stable"

/-- C7: the chunk endpoint serves bytes only for hashes referenced by
the manifest resolved for the requested (slug, version, platform,
channel); for a hash outside that manifest it never returns bytes, and —
for a well-formed hash and an authorized caller — fails with exactly
404 Chunk not in manifest. -/
theorem C7_chunk_requires_manifest_membership (s : ServerState)
    (h slug version platform channel : String) (u : AuthUser) :
    (∀ b, getChunk s h slug version platform channel u = .ok b →
      ∃ m rel, loadReadyManifest s slug platform channel (some version) =
          .ok (m, rel) ∧
        manifestContainsChunk m h = true ∧ s.chunkDisk h = some b) ∧
    (∀ m rel, loadReadyManifest s slug platform channel (some version) =
        .ok (m, rel) →
      manifestContainsChunk m h = false →
      (getChunk s h slug version platform channel u).isOk = false ∧
      (∀ r, requireDownloadAccess s slug u = .ok r →
        sha256Ok h = true →
        getChunk s h slug version platform channel u =
          .error ⟨404, "Chunk not in manifest"⟩)) := by
  constructor
  · intro b hb
    unfold getChunk at hb
    split at hb
    · exact absurd hb (by simp)
    · split at hb
      · exact absurd hb (by simp)
      · rename_i r hr
        split at hb
        · exact absurd hb (by simp)
        · rename_i mm relv hload
          split at hb
          · exact absurd hb (by simp)
          · rename_i hcont
            split at hb
            · exact absurd hb (by simp)
            · rename_i b2 hdisk
              simp only [Except.ok.injEq] at hb
              subst hb
              exact ⟨mm, relv, hload, by simpa using hcont, hdisk⟩
  · intro m rel hload hcont
    constructor
    · unfold getChunk
      split
      · rfl
      · rename_i hhex
        cases hacc : requireDownloadAccess s slug u with
        | error e => simp [Except.isOk, Except.toBool]
        | ok r =>
          simp only [hload]
          rw [if_pos hcont]
          simp [Except.isOk, Except.toBool]
    · intro r hacc hhex
      unfold getChunk
      rw [if_neg (by rw [hhex]; simp)]
      simp only [hacc, hload]
      rw [if_pos hcont]

/-- C7 witness: the fixture manifest references no chunks, so an
authorized owner asking for a well-formed hash gets 404 Chunk not in
manifest. -/
theorem C7_witness :
    getChunk fxStateC4 fxHashA "game" "1.0.0" "windows" "stable" fxDev =
      .error ⟨404, "Chunk not in manifest"⟩ :=
  ((C7_chunk_requires_manifest_membership fxStateC4 fxHashA "game" "1.0.0"
      "windows" "stable" fxDev).2 fxManifest0 fxRel (by decide) (by decide)).2
    ⟨1, 7, 0⟩ (by decide) (by decide)

/-- When no chunk row for `h` exists, bumping refcounts at `h` leaves no
row whose hash is `h`. -/
theorem filter_bump_of_none (h : String) (l : List ChunkRow)
    (hnone : l.find? (fun r => r.hash == h) = none) :
    (l.map (fun r =>
      if r.hash == h then { r with refCount := r.refCount + 1 } else r)).filter
      (fun r => r.hash == h) = [] := by
  induction l with
  | nil => rfl
  | cons x xs ih =>
    rw [List.find?_cons] at hnone
    cases hx : (x.hash == h) with
    | true => rw [hx] at hnone; simp at hnone
    | false =>
      rw [hx] at hnone
      simp only [List.map_cons, List.filter_cons]
      rw [if_neg (by simp [hx])]
      exact ih hnone

/-- `upload_chunk` on a fresh hash: writes the bytes and inserts a row
with reference count 1. -/
theorem uploadChunk_insert (hfn : Bytes → String) (s : ServerState)
    (u : AuthUser) (h : String) (b : Bytes)
    (hdev : requireDev u = .ok u)
    (hhex : sha256Ok h = true)
    (hmatch : hfn b = h)
    (hnone : s.chunksTable.find? (fun r => r.hash == h) = none) :
    uploadChunk hfn s u h b = (.ok (),
      { s with
        chunkDisk := mapUpdate s.chunkDisk h b
        chunkWrites := bumpCount s.chunkWrites h
        chunksTable := s.chunksTable ++
          [⟨h, (b.length : Int), chunkStoragePath h, 1⟩] }) := by
  unfold uploadChunk
  simp only [hdev, hhex, hmatch, hnone]
  simp

/-- `upload_chunk` on an existing hash: rewrites the bytes (bumping the
write count) and increments the row's reference count. -/
theorem uploadChunk_increment (hfn : Bytes → String) (s : ServerState)
    (u : AuthUser) (h : String) (b : Bytes) (row : ChunkRow)
    (hdev : requireDev u = .ok u)
    (hhex : sha256Ok h = true)
    (hmatch : hfn b = h)
    (hrow : s.chunksTable.find? (fun r => r.hash == h) = some row) :
    uploadChunk hfn s u h b = (.ok (),
      { s with
        chunkDisk := mapUpdate s.chunkDisk h b
        chunkWrites := bumpCount s.chunkWrites h
        chunksTable := s.chunksTable.map (fun r =>
          if r.hash == h then { r with refCount := r.refCount + 1 } else r) }) := by
  unfold uploadChunk
  simp only [hdev, hhex, hmatch, hrow]
  simp

/-- C1 counterexample: two uploads of equal content yield one
ChunkRecord with reference count 2 — but the bytes on disk are written
on both calls (`p.write_bytes(body)` runs before the existence check),
not exactly once. -/
theorem C1_counterexample :
    (uploadChunk fxConstHashA fxEmpty fxDev fxHashA [0]).1 = .ok () ∧
    (uploadChunk fxConstHashA
      (uploadChunk fxConstHashA fxEmpty fxDev fxHashA [0]).2 fxDev fxHashA [0]).1 =
      .ok () ∧
    ((uploadChunk fxConstHashA
      (uploadChunk fxConstHashA fxEmpty fxDev fxHashA [0]).2 fxDev fxHashA
      [0]).2.chunksTable.map (fun r => (r.hash, r.refCount))) = [(fxHashA, 2)] ∧
    (uploadChunk fxConstHashA fxEmpty fxDev fxHashA [0]).2.chunkWrites fxHashA = 1 ∧
    (uploadChunk fxConstHashA
      (uploadChunk fxConstHashA fxEmpty fxDev fxHashA [0]).2 fxDev fxHashA
      [0]).2.chunkWrites fxHashA = 2 := by
  refine ⟨rfl, by decide, by decide, by decide, by decide⟩

/-- C1 amended: a Put whose hash already has a ChunkRecord increments
the reference count and inserts no new record, but it does rewrite the
stored bytes (one `write_bytes` per upload) — with content identical to
what the hash already names, since the hash is verified against the
body.  Two uploads of equal content still yield exactly one ChunkRecord
with reference count 2, with the bytes written twice, not once. -/
theorem C1_put_dedup (hfn : Bytes → String) (s : ServerState) (u : AuthUser)
    (h : String) (b : Bytes)
    (hdev : requireDev u = .ok u)
    (hhex : sha256Ok h = true)
    (hmatch : hfn b = h) :
    (∀ row, s.chunksTable.find? (fun r => r.hash == h) = some row →
      (uploadChunk hfn s u h b).1 = .ok () ∧
      (uploadChunk hfn s u h b).2.chunksTable =
        s.chunksTable.map (fun r =>
          if r.hash == h then { r with refCount := r.refCount + 1 } else r) ∧
      (uploadChunk hfn s u h b).2.chunkDisk h = some b ∧
      (uploadChunk hfn s u h b).2.chunkWrites h = s.chunkWrites h + 1) ∧
    (s.chunksTable.find? (fun r => r.hash == h) = none →
      ((uploadChunk hfn (uploadChunk hfn s u h b).2 u h b).2.chunksTable.filter
        (fun r => r.hash == h)).map ChunkRow.refCount = [2] ∧
      (uploadChunk hfn (uploadChunk hfn s u h b).2 u h b).2.chunkDisk h = some b ∧
      (uploadChunk hfn (uploadChunk hfn s u h b).2 u h b).2.chunkWrites h =
        s.chunkWrites h + 2) := by
  constructor
  · intro row hrow
    rw [uploadChunk_increment hfn s u h b row hdev hhex hmatch hrow]
    refine ⟨rfl, rfl, ?_, ?_⟩
    · simp [mapUpdate]
    · simp [bumpCount]
  · intro hnone
    rw [uploadChunk_insert hfn s u h b hdev hhex hmatch hnone]
    have hfind1 :
        (s.chunksTable ++ [(⟨h, (b.length : Int), chunkStoragePath h, 1⟩ :
          ChunkRow)]).find? (fun r => r.hash == h) =
          some ⟨h, (b.length : Int), chunkStoragePath h, 1⟩ := by
      rw [List.find?_append, hnone]
      simp
    rw [uploadChunk_increment hfn _ u h b _ hdev hhex hmatch hfind1]
    refine ⟨?_, ?_, ?_⟩
    · simp only [List.map_append, List.filter_append]
      rw [filter_bump_of_none h s.chunksTable hnone]
      simp
    · simp [mapUpdate]
    · simp [bumpCount]

/-- C1 witness: the fresh-hash scenario at a concrete state: one record
with refcount 2 and two disk writes after two equal uploads. -/
theorem C1_witness :
    ((uploadChunk fxConstHashA
        (uploadChunk fxConstHashA fxEmpty fxDev fxHashA [0]).2 fxDev fxHashA
        [0]).2.chunksTable.filter (fun r => r.hash == fxHashA)).map
      ChunkRow.refCount = [2] ∧
    (uploadChunk fxConstHashA
      (uploadChunk fxConstHashA fxEmpty fxDev fxHashA [0]).2 fxDev fxHashA
      [0]).2.chunkDisk fxHashA = some [0] ∧
    (uploadChunk fxConstHashA
      (uploadChunk fxConstHashA fxEmpty fxDev fxHashA [0]).2 fxDev fxHashA
      [0]).2.chunkWrites fxHashA = fxEmpty.chunkWrites fxHashA + 2 :=
  (C1_put_dedup fxConstHashA fxEmpty fxDev fxHashA [0] (by decide) (by decide)
    (by decide)).2 (by decide)

/-- Splitting at the first dot of `xs ++ '.' :: ys` recovers `(xs, ys)`
when `xs` is dot-free. -/
theorem splitFirstDot_of_no_dot (xs ys : List Char)
    (hx : xs.contains '.' = false) :
    splitFirstDot (xs ++ '.' :: ys) = some (xs, ys) := by
  induction xs with
  | nil => simp [splitFirstDot]
  | cons c cs ih =>
    have hor := hx
    rw [List.contains_cons] at hor
    rcases Bool.or_eq_false_iff.mp hor with ⟨hc, hcs⟩
    have hcne : ¬((c == '.') = true) := by
      intro hcc
      rw [beq_iff_eq.mp hcc] at hc
      simp at hc
    simp only [List.cons_append, splitFirstDot]
    rw [if_neg hcne]
    show (match splitFirstDot (cs ++ '.' :: ys) with
      | none => none
      | some (a, b) => some (c :: a, b)) = some (c :: cs, ys)
    rw [ih hcs]

/-- A nonempty string has a nonempty character list. -/
theorem toList_isEmpty_eq_false {s : String} (h : s ≠ "") :
    s.toList.isEmpty = false := by
  cases s with
  | mk d =>
    cases d with
    | nil => exact absurd rfl h
    | cons c cs => rfl

/-- Rebuilding a string from its character list is the identity. -/
theorem stringMk_toList (s : String) : String.mk s.toList = s := rfl

/-- Formatting then parsing a refresh token round-trips when the session
id is nonempty and dot-free and the secret is nonempty (uuid4().hex
session ids are such). -/
theorem parseRefreshToken_build (sid secret : String)
    (hdot : sid.toList.contains '.' = false)
    (hsid : sid ≠ "") (hsec : secret ≠ "") :
    parseRefreshToken (buildRefreshToken sid secret) = some (sid, secret) := by
  unfold buildRefreshToken parseRefreshToken
  have hdata : (sid ++ "." ++ secret).toList =
      sid.toList ++ '.' :: secret.toList := by
    show (sid ++ "." ++ secret).data = sid.data ++ '.' :: secret.data
    rw [String.data_append, String.data_append]
    simp [List.append_assoc]
  rw [hdata, splitFirstDot_of_no_dot _ _ hdot]
  show (if (sid.toList.isEmpty || secret.toList.isEmpty) = true then none
    else some (String.mk sid.toList, String.mk secret.toList)) =
    some (sid, secret)
  rw [toList_isEmpty_eq_false hsid, toList_isEmpty_eq_false hsec]
  rfl

/-- A parsed refresh token has nonempty session id and secret parts. -/
theorem parseRefreshToken_ne_empty {t x y : String}
    (h : parseRefreshToken t = some (x, y)) : x ≠ "" ∧ y ≠ "" := by
  unfold parseRefreshToken at h
  split at h
  · exact absurd h (by simp)
  · rename_i a b heq
    split at h
    · exact absurd h (by simp)
    · rename_i hne
      simp only [Option.some.injEq, Prod.mk.injEq] at h
      obtain ⟨hx, hy⟩ := h
      have hne2 : a.isEmpty = false ∧ b.isEmpty = false :=
        Bool.or_eq_false_iff.mp (by simpa using hne)
      constructor
      · rw [← hx]
        intro hc
        have hd : a = [] := congrArg String.data hc
        rw [hd] at hne2
        simp at hne2
      · rw [← hy]
        intro hc
        have hd : b = [] := congrArg String.data hc
        rw [hd] at hne2
        simp at hne2

/-- C2: refresh rotation and reuse detection.  A successful refresh
rotates the stored secret hash; presenting the previous token again
(valid session, not expired, matching device, distinct rotated hash)
fails with ReuseDetected and marks the session revoked at that moment;
and from the revoked state every further refresh for that session id —
in particular one built from the newest secret — fails with
InvalidToken and changes nothing. -/
theorem C2_refresh_rotation_reuse (hfn : String → String)
    (users : Int → Option UserRec) (db0 : SessionsMap)
    (sid oldSecret newSecret tok1 : String) (row : SessionRow)
    (now1 now2 : Nat) (dev : Option String)
    (hparse : parseRefreshToken tok1 = some (sid, oldSecret))
    (hrow : db0 sid = some row)
    (hactive : row.revokedAt = none)
    (hnotexp : sessionExpiredAt row now1 = false)
    (hdev : deviceMismatch dev row.deviceId = false)
    (hmatch : hfn oldSecret = row.refreshTokenHash)
    (huser : (users row.userId).isSome = true)
    (hrot : hfn oldSecret ≠ hfn newSecret)
    (hnow2 : now2 < now1 + refreshTtlSeconds)
    (hdotfree : sid.toList.contains '.' = false)
    (hsecne : newSecret ≠ "") :
    (refreshTokens hfn users db0 now1 newSecret tok1 dev).1 =
      .ok ⟨sid, buildRefreshToken sid newSecret, row.userId⟩ ∧
    (∀ ns2,
      (refreshTokens hfn users
        (refreshTokens hfn users db0 now1 newSecret tok1 dev).2
        now2 ns2 tok1 dev).1 = .error ⟨401, "Refresh reuse detected"⟩ ∧
      ((refreshTokens hfn users
        (refreshTokens hfn users db0 now1 newSecret tok1 dev).2
        now2 ns2 tok1 dev).2 sid).map SessionRow.revokedAt =
          some (some now2) ∧
      (∀ tok s3 now3 ns3 dev3, parseRefreshToken tok = some (sid, s3) →
        refreshTokens hfn users
          (refreshTokens hfn users
            (refreshTokens hfn users db0 now1 newSecret tok1 dev).2
            now2 ns2 tok1 dev).2 now3 ns3 tok dev3 =
          (.error ⟨401, "Invalid refresh token"⟩,
            (refreshTokens hfn users
              (refreshTokens hfn users db0 now1 newSecret tok1 dev).2
              now2 ns2 tok1 dev).2)) ∧
      (∀ now3 ns3 dev3,
        refreshTokens hfn users
          (refreshTokens hfn users
            (refreshTokens hfn users db0 now1 newSecret tok1 dev).2
            now2 ns2 tok1 dev).2 now3 ns3
          (buildRefreshToken sid newSecret) dev3 =
          (.error ⟨401, "Invalid refresh token"⟩,
            (refreshTokens hfn users
              (refreshTokens hfn users db0 now1 newSecret tok1 dev).2
              now2 ns2 tok1 dev).2))) := by
  obtain ⟨ur, hur⟩ := Option.isSome_iff_exists.mp huser
  have hc1 : refreshTokens hfn users db0 now1 newSecret tok1 dev =
      (.ok ⟨sid, buildRefreshToken sid newSecret, row.userId⟩,
        sessUpdate db0 sid { row with
          refreshTokenHash := hfn newSecret,
          lastUsedAt := now1,
          refreshExpiresAt := some (now1 + refreshTtlSeconds) }) := by
    unfold refreshTokens
    simp only [hparse]
    simp [hrow, hactive, hnotexp, hdev, hur, hmatch]
  have hdb1 : (refreshTokens hfn users db0 now1 newSecret tok1 dev).2 =
      sessUpdate db0 sid { row with
        refreshTokenHash := hfn newSecret,
        lastUsedAt := now1,
        refreshExpiresAt := some (now1 + refreshTtlSeconds) } := by
    rw [hc1]
  refine ⟨by rw [hc1], ?_⟩
  intro ns2
  have hrow1b : sessUpdate db0 sid { row with
      refreshTokenHash := hfn newSecret,
      lastUsedAt := now1,
      refreshExpiresAt := some (now1 + refreshTtlSeconds) } sid =
      some { row with
        refreshTokenHash := hfn newSecret,
        lastUsedAt := now1,
        refreshExpiresAt := some (now1 + refreshTtlSeconds) } := by
    simp [sessUpdate]
  have hexp2 : ∀ r : SessionRow,
      r.refreshExpiresAt = some (now1 + refreshTtlSeconds) →
      sessionExpiredAt r now2 = false := by
    intro r hr
    unfold sessionExpiredAt
    rw [hr]
    simp [Nat.not_le.mpr hnow2]
  have hc2b : refreshTokens hfn users
      (sessUpdate db0 sid { row with
        refreshTokenHash := hfn newSecret,
        lastUsedAt := now1,
        refreshExpiresAt := some (now1 + refreshTtlSeconds) })
      now2 ns2 tok1 dev =
      (.error ⟨401, "Refresh reuse detected"⟩,
        sessUpdate (sessUpdate db0 sid { row with
          refreshTokenHash := hfn newSecret,
          lastUsedAt := now1,
          refreshExpiresAt := some (now1 + refreshTtlSeconds) }) sid
          { row with
            refreshTokenHash := hfn newSecret,
            lastUsedAt := now1,
            refreshExpiresAt := some (now1 + refreshTtlSeconds),
            revokedAt := some now2 }) := by
    unfold refreshTokens
    simp only [hparse, hrow1b]
    simp [hactive, hexp2, hdev, hrot]
  have hc2 : refreshTokens hfn users
      (refreshTokens hfn users db0 now1 newSecret tok1 dev).2
      now2 ns2 tok1 dev =
      (.error ⟨401, "Refresh reuse detected"⟩,
        sessUpdate (sessUpdate db0 sid { row with
          refreshTokenHash := hfn newSecret,
          lastUsedAt := now1,
          refreshExpiresAt := some (now1 + refreshTtlSeconds) }) sid
          { row with
            refreshTokenHash := hfn newSecret,
            lastUsedAt := now1,
            refreshExpiresAt := some (now1 + refreshTtlSeconds),
            revokedAt := some now2 }) := by
    rw [hdb1]
    exact hc2b
  have hafterb : ∀ tok s3 now3 ns3 dev3,
      parseRefreshToken tok = some (sid, s3) →
      refreshTokens hfn users
        (sessUpdate (sessUpdate db0 sid { row with
          refreshTokenHash := hfn newSecret,
          lastUsedAt := now1,
          refreshExpiresAt := some (now1 + refreshTtlSeconds) }) sid
          { row with
            refreshTokenHash := hfn newSecret,
            lastUsedAt := now1,
            refreshExpiresAt := some (now1 + refreshTtlSeconds),
            revokedAt := some now2 }) now3 ns3 tok dev3 =
        (.error ⟨401, "Invalid refresh token"⟩,
          sessUpdate (sessUpdate db0 sid { row with
            refreshTokenHash := hfn newSecret,
            lastUsedAt := now1,
            refreshExpiresAt := some (now1 + refreshTtlSeconds) }) sid
            { row with
              refreshTokenHash := hfn newSecret,
              lastUsedAt := now1,
              refreshExpiresAt := some (now1 + refreshTtlSeconds),
              revokedAt := some now2 }) := by
    intro tok s3 now3 ns3 dev3 hp
    have hrow2b : sessUpdate (sessUpdate db0 sid { row with
        refreshTokenHash := hfn newSecret,
        lastUsedAt := now1,
        refreshExpiresAt := some (now1 + refreshTtlSeconds) }) sid
        { row with
          refreshTokenHash := hfn newSecret,
          lastUsedAt := now1,
          refreshExpiresAt := some (now1 + refreshTtlSeconds),
          revokedAt := some now2 } sid =
        some { row with
          refreshTokenHash := hfn newSecret,
          lastUsedAt := now1,
          refreshExpiresAt := some (now1 + refreshTtlSeconds),
          revokedAt := some now2 } := by
      simp [sessUpdate]
    unfold refreshTokens
    simp only [hp, hrow2b]
    simp
  refine ⟨by rw [hc2], by simp only [hc2]; simp [sessUpdate], ?_, ?_⟩
  · intro tok s3 now3 ns3 dev3 hp
    simp only [hc2]
    exact hafterb tok s3 now3 ns3 dev3 hp
  · intro now3 ns3 dev3
    have hsidne : sid ≠ "" := (parseRefreshToken_ne_empty hparse).1
    simp only [hc2]
    exact hafterb (buildRefreshToken sid newSecret) newSecret now3 ns3 dev3
      (parseRefreshToken_build sid newSecret hdotfree hsidne hsecne)

/-- C2 witness: the rotation / reuse / revocation scenario evaluated on
a concrete one-session table with the identity secret hash. -/
theorem C2_witness :
    (refreshTokens fxIdHash fxUsersC2 fxSessionsC2 0 "new" "sid1.old" none).1 =
      .ok ⟨"sid1", buildRefreshToken "sid1" "new", 1⟩ ∧
    (refreshTokens fxIdHash fxUsersC2
      (refreshTokens fxIdHash fxUsersC2 fxSessionsC2 0 "new" "sid1.old" none).2
      1 "other" "sid1.old" none).1 = .error ⟨401, "Refresh reuse detected"⟩ ∧
    ((refreshTokens fxIdHash fxUsersC2
      (refreshTokens fxIdHash fxUsersC2 fxSessionsC2 0 "new" "sid1.old" none).2
      1 "other" "sid1.old" none).2 "sid1").map SessionRow.revokedAt =
      some (some 1) := by
  have h := C2_refresh_rotation_reuse fxIdHash fxUsersC2 fxSessionsC2 "sid1"
    "old" "new" "sid1.old" ⟨1, none, "old", 0, 0, some 100, none⟩ 0 1 none
    (by decide) (by decide) (by decide) (by decide) (by decide) (by decide)
    (by decide) (by decide) (by decide) (by decide) (by decide)
  exact ⟨h.1, (h.2 "other").1, (h.2 "other").2.1⟩

/-- Inversion of the chunk loop: success means well-formed nonnegative
chunks whose offsets are the contiguous run from the start offset, and
the returned offset is start plus the size sum. -/
theorem validateEntryChunks_ok_inv (chunks : List ChunkInfo) :
    ∀ e x, validateEntryChunks chunks e = .ok x →
    (∀ c ∈ chunks, sha256Ok c.sha256 = true ∧ 0 ≤ c.size) ∧
    chunks.map ChunkInfo.offset = offsetsFrom e (chunks.map ChunkInfo.size) ∧
    x = e + intSum (chunks.map ChunkInfo.size) := by
  induction chunks with
  | nil =>
    intro e x h
    simp only [validateEntryChunks, Except.ok.injEq] at h
    subst h
    simp [offsetsFrom, intSum]
  | cons ch rest ih =>
    intro e x h
    unfold validateEntryChunks at h
    split at h
    · simp at h
    · split at h
      · simp at h
      · split at h
        · simp at h
        · rename_i hhex hsz hoff
          obtain ⟨h1, h2, h3⟩ := ih (e + ch.size) x h
          refine ⟨?_, ?_, ?_⟩
          · intro c hc
            rcases List.mem_cons.mp hc with hc1 | hc2
            · subst hc1
              exact ⟨by simpa using hhex, Int.not_lt.mp hsz⟩
            · exact h1 c hc2
          · simp only [List.map_cons, offsetsFrom, List.cons.injEq]
            exact ⟨not_not.mp hoff, h2⟩
          · rw [h3]
            simp only [List.map_cons, intSum, List.foldr_cons]
            show e + ch.size + List.foldr (· + ·) 0 (rest.map ChunkInfo.size) =
              e + (ch.size + List.foldr (· + ·) 0 (rest.map ChunkInfo.size))
            ring

/-- Converse of the chunk-loop inversion. -/
theorem validateEntryChunks_ok_of (chunks : List ChunkInfo) :
    ∀ e, (∀ c ∈ chunks, sha256Ok c.sha256 = true ∧ 0 ≤ c.size) →
    chunks.map ChunkInfo.offset = offsetsFrom e (chunks.map ChunkInfo.size) →
    validateEntryChunks chunks e = .ok (e + intSum (chunks.map ChunkInfo.size)) := by
  induction chunks with
  | nil =>
    intro e _ _
    simp [validateEntryChunks, intSum]
  | cons ch rest ih =>
    intro e hall hoff
    simp only [List.map_cons, offsetsFrom, List.cons.injEq] at hoff
    have hch := hall ch (List.mem_cons_self _ _)
    unfold validateEntryChunks
    rw [if_neg (by simp [hch.1])]
    rw [if_neg (Int.not_lt.mpr hch.2)]
    rw [if_neg (not_not.mpr hoff.1)]
    rw [ih (e + ch.size) (fun c hc => hall c (List.mem_cons_of_mem _ hc)) hoff.2]
    simp only [List.map_cons, intSum, List.foldr_cons, Except.ok.injEq]
    show e + ch.size + List.foldr (· + ·) 0 (rest.map ChunkInfo.size) =
      e + (ch.size + List.foldr (· + ·) 0 (rest.map ChunkInfo.size))
    ring

/-- Inversion of the file loop: success means every entry satisfies the
per-file predicate, the normalized paths are mutually distinct and
disjoint from `seen`, and the accumulated total is the size sum. -/
theorem validateFilesLoop_ok_inv (files : List FileEntry) :
    ∀ seen total r, validateFilesLoop files seen total = .ok r →
    (∀ f ∈ files, specFileOk f) ∧
    (files.map npOf).Nodup ∧
    (∀ f ∈ files, ∀ p, normalizeManifestFilePath f.path = .ok p → p ∉ seen) ∧
    r.2 = total + intSum (files.map FileEntry.size) := by
  induction files with
  | nil =>
    intro seen total r h
    simp only [validateFilesLoop, Except.ok.injEq] at h
    subst h
    simp [intSum]
  | cons entry rest ih =>
    intro seen total r h
    unfold validateFilesLoop at h
    split at h
    · simp at h
    · rename_i np hnp
      split at h
      · simp at h
      · rename_i hseen
        split at h
        · simp at h
        · rename_i hfhex
          split at h
          · simp at h
          · rename_i endOff hchunks
            split at h
            · simp at h
            · rename_i hsize
              split at h
              · simp at h
              · rename_i rest2 t hrec
                obtain ⟨hc1, hc2, hc3⟩ :=
                  validateEntryChunks_ok_inv entry.chunks 0 endOff hchunks
                obtain ⟨ih1, ih2, ih3, ih4⟩ :=
                  ih (np :: seen) (total + entry.size) (rest2, t) hrec
                have hespec : specFileOk entry := by
                  refine ⟨by rw [hnp]; rfl, by simpa using hfhex, hc1, hc2, ?_⟩
                  rw [not_not.mp hsize, hc3]
                  unfold chunkSizes
                  ring
                have hnpentry : npOf entry = some np := by
                  unfold npOf
                  rw [hnp]
                  rfl
                refine ⟨?_, ?_, ?_, ?_⟩
                · intro f hf
                  rcases List.mem_cons.mp hf with hf1 | hf2
                  · subst hf1; exact hespec
                  · exact ih1 f hf2
                · simp only [List.map_cons, List.nodup_cons]
                  refine ⟨?_, ih2⟩
                  intro hmem
                  obtain ⟨f, hf, hnpf⟩ := List.mem_map.mp hmem
                  rw [hnpentry] at hnpf
                  unfold npOf at hnpf
                  cases hfn : normalizeManifestFilePath f.path with
                  | error e2 => rw [hfn] at hnpf; simp [Except.toOption] at hnpf
                  | ok p2 =>
                    rw [hfn] at hnpf
                    simp only [Except.toOption, Option.some.injEq] at hnpf
                    have hni := ih3 f hf p2 hfn
                    rw [hnpf] at hni
                    exact hni (List.mem_cons_self _ _)
                · intro f hf p hp
                  rcases List.mem_cons.mp hf with hf1 | hf2
                  · subst hf1
                    rw [hnp] at hp
                    cases hp
                    intro hmem
                    exact hseen (List.elem_iff.mpr hmem)
                  · intro hmem
                    exact ih3 f hf2 p hp (List.mem_cons_of_mem _ hmem)
                · have hr2 : r.2 = t := by
                    simp only [Except.ok.injEq] at h
                    rw [← h]
                  have ih4b : t = total + entry.size +
                      intSum (List.map FileEntry.size rest) := ih4
                  rw [hr2, ih4b]
                  simp only [List.map_cons, intSum, List.foldr_cons]
                  show total + entry.size + _ = total + (entry.size + _)
                  ring

/-- Converse of the file-loop inversion. -/
theorem validateFilesLoop_ok_of (files : List FileEntry) :
    ∀ seen total,
    (∀ f ∈ files, specFileOk f) →
    (files.map npOf).Nodup →
    (∀ f ∈ files, ∀ p, normalizeManifestFilePath f.path = .ok p → p ∉ seen) →
    ∃ files2, validateFilesLoop files seen total =
      .ok (files2, total + intSum (files.map FileEntry.size)) := by
  induction files with
  | nil =>
    intro seen total _ _ _
    exact ⟨[], by simp [validateFilesLoop, intSum]⟩
  | cons entry rest ih =>
    intro seen total hall hnodup hseen
    obtain ⟨hokpath, hfhex, hchunkcond, hoffs, hsum⟩ :=
      hall entry (List.mem_cons_self _ _)
    obtain ⟨np, hnp⟩ : ∃ np, normalizeManifestFilePath entry.path = .ok np := by
      cases hv : normalizeManifestFilePath entry.path with
      | error e => rw [hv] at hokpath; simp [Except.isOk, Except.toBool] at hokpath
      | ok p => exact ⟨p, rfl⟩
    have hnpentry : npOf entry = some np := by
      unfold npOf
      rw [hnp]
      rfl
    unfold validateFilesLoop
    simp only [hnp]
    rw [if_neg ?_]
    swap
    · intro hcont
      exact hseen entry (List.mem_cons_self _ _) np hnp (List.elem_iff.mp hcont)
    rw [if_neg (by simp [hfhex])]
    simp only [validateEntryChunks_ok_of entry.chunks 0 hchunkcond hoffs]
    rw [if_neg (not_not.mpr (by rw [hsum]; unfold chunkSizes; ring))]
    simp only [List.map_cons, List.nodup_cons] at hnodup
    have hrest :
        ∀ f ∈ rest, ∀ p, normalizeManifestFilePath f.path = .ok p →
          p ∉ np :: seen := by
      intro f hf p hp hmem
      rcases List.mem_cons.mp hmem with hp1 | hp2
      · subst hp1
        apply hnodup.1
        refine List.mem_map.mpr ⟨f, hf, ?_⟩
        rw [hnpentry]
        unfold npOf
        rw [hp]
        rfl
      · exact hseen f (List.mem_cons_of_mem _ hf) p hp hp2
    obtain ⟨files2, hrec⟩ := ih (np :: seen) (total + entry.size)
      (fun f hf => hall f (List.mem_cons_of_mem _ hf)) hnodup.2 hrest
    rw [hrec]
    refine ⟨{ entry with path := np } :: files2, ?_⟩
    have harith : total + entry.size + intSum (List.map FileEntry.size rest) =
        total + intSum (List.map FileEntry.size (entry :: rest)) := by
      simp only [List.map_cons, intSum, List.foldr_cons]
      ring
    rw [← harith]

/-- Fidelity of the hash guard: Python `$` (without MULTILINE) also
matches just before a trailing newline, so `SHA256_RE.match` — and the
model's `sha256Ok` — accept 64 hex characters followed by one
newline. -/
theorem sha256Ok_trailing_newline : sha256Ok (fxHashA ++ "\n") = true := by
  decide

/-- Fidelity of path normalization: Python `str.strip()` strips U+0085
(NEL), so a path consisting only of NEL is empty after stripping and
rejected. -/
theorem normalize_rejects_nel :
    normalizeManifestFilePath (String.mk [Char.ofNat 133]) =
      .error ⟨400, "Invalid file path"⟩ := by
  decide

/-- C6 counterexample: the concrete manifest with a zero-size chunk
(offsets 0, 0 — contiguous but not strictly increasing) is accepted by
the validator although the claim's conditions (strictly increasing
offsets) do not hold of it. -/
theorem C6_counterexample :
    (validateManifestFiles fxManifestC6).isOk = true ∧
    ¬ specManifestAcceptedClaimed fxManifestC6 := by
  constructor
  · decide
  · decide

/-- C6 amended: the validator accepts a manifest iff every file path
normalizes (after Python `str.strip()`: no absolute, `.`, `..`, empty
or drive-letter-prefixed paths), the normalized paths are pairwise
distinct, the whole-file hash and every chunk hash match the SHA-256
regex under Python `re.match` (64 lowercase-hex characters, optionally
followed by one trailing newline, which `$` permits), every chunk size
is nonnegative and each file's offsets form the contiguous run
starting at 0 (hence non-decreasing; strictly increasing only between
chunks of positive size), each file's chunk sizes sum to its declared
size, and the file sizes sum to the declared total — any violation
rejects the manifest as a whole. -/
theorem C6_validate_iff (m : Manifest) :
    (validateManifestFiles m).isOk = true ↔ specManifestAccepted m := by
  constructor
  · intro h
    obtain ⟨m2, hm2⟩ : ∃ m2, validateManifestFiles m = .ok m2 := by
      cases hv : validateManifestFiles m with
      | error e => rw [hv] at h; simp [Except.isOk, Except.toBool] at h
      | ok mm => exact ⟨mm, rfl⟩
    unfold validateManifestFiles at hm2
    split at hm2
    · exact absurd hm2 (by simp)
    · rename_i files2 total hloop
      split at hm2
      · exact absurd hm2 (by simp)
      · rename_i htot
        obtain ⟨h1, h2, _, h4⟩ :=
          validateFilesLoop_ok_inv m.files [] 0 (files2, total) hloop
        refine ⟨h1, h2, ?_⟩
        have := not_not.mp htot
        rw [this]
        simpa using h4
  · rintro ⟨hall, hnodup, htotal⟩
    obtain ⟨files2, hloop⟩ :=
      validateFilesLoop_ok_of m.files [] 0 hall hnodup (by simp)
    unfold validateManifestFiles
    simp only [hloop]
    rw [if_neg (not_not.mpr (by rw [htotal]; ring))]
    rfl

/-- Concatenating the CHUNK_SIZE windows of a byte string restores it. -/
theorem chunkFile_flatten (l : Bytes) : (chunkFile l).flatten = l := by
  have H : ∀ n (l : Bytes), l.length = n → (chunkFile l).flatten = l := by
    intro n
    induction n using Nat.strong_induction_on with
    | _ n ih =>
      intro l hn
      rw [chunkFile]
      by_cases hl : l.isEmpty
      · rw [if_pos hl]
        have hnil : l = [] := List.isEmpty_iff.mp hl
        rw [hnil]
        rfl
      · rw [if_neg hl]
        have hlen : (l.drop chunkSize).length < n := by
          have hne : l ≠ [] := fun hc => by rw [hc] at hl; exact hl rfl
          have h1 : 0 < l.length := List.length_pos.mpr hne
          have h2 : 0 < chunkSize := by decide
          simp only [List.length_drop]
          omega
        have ihd := ih (l.drop chunkSize).length hlen (l.drop chunkSize) rfl
        simp only [List.flatten_cons, ihd]
        exact List.take_append_drop chunkSize l
  exact H l.length l rfl

/-- The hashes of the assembled chunk descriptors are the window hashes,
in order. -/
theorem chunkInfosFrom_sha (hfn : Bytes → String) :
    ∀ (ws : List Bytes) (off : Int),
    (chunkInfosFrom hfn off ws).map ChunkInfo.sha256 = ws.map hfn := by
  intro ws
  induction ws with
  | nil => intro off; rfl
  | cons w rest ih =>
    intro off
    simp only [chunkInfosFrom, List.map_cons, ih]

/-- The sizes of the assembled chunk descriptors are the window lengths. -/
theorem chunkInfosFrom_sizes (hfn : Bytes → String) :
    ∀ (ws : List Bytes) (off : Int),
    (chunkInfosFrom hfn off ws).map ChunkInfo.size =
      ws.map (fun b => ((b.length : Int))) := by
  intro ws
  induction ws with
  | nil => intro off; rfl
  | cons w rest ih =>
    intro off
    simp only [chunkInfosFrom, List.map_cons, ih]

/-- The offsets of the assembled chunk descriptors form the contiguous
run from the start offset. -/
theorem chunkInfosFrom_offsets (hfn : Bytes → String) :
    ∀ (ws : List Bytes) (off : Int),
    (chunkInfosFrom hfn off ws).map ChunkInfo.offset =
      offsetsFrom off ((chunkInfosFrom hfn off ws).map ChunkInfo.size) := by
  intro ws
  induction ws with
  | nil => intro off; rfl
  | cons w rest ih =>
    intro off
    simp only [chunkInfosFrom, List.map_cons, offsetsFrom, List.cons.injEq]
    exact ⟨trivial, ih (off + (w.length : Int))⟩

/-- Every assembled chunk descriptor names one of the windows. -/
theorem chunkInfosFrom_mem (hfn : Bytes → String) :
    ∀ (ws : List Bytes) (off : Int) (c : ChunkInfo),
    c ∈ chunkInfosFrom hfn off ws →
    ∃ w ∈ ws, c.sha256 = hfn w ∧ c.size = ((w.length : Int)) := by
  intro ws
  induction ws with
  | nil => intro off c hc; simp [chunkInfosFrom] at hc
  | cons w rest ih =>
    intro off c hc
    simp only [chunkInfosFrom, List.mem_cons] at hc
    rcases hc with hc1 | hc2
    · subst hc1
      exact ⟨w, List.mem_cons_self _ _, rfl, rfl⟩
    · obtain ⟨w2, hw2, hp⟩ := ih (off + (w.length : Int)) c hc2
      exact ⟨w2, List.mem_cons_of_mem _ hw2, hp⟩

/-- The integer sum of the window lengths is the length of the
concatenation. -/
theorem intSum_map_length (ws : List Bytes) :
    intSum (ws.map (fun b => ((b.length : Int)))) = ((ws.flatten.length : Int)) := by
  induction ws with
  | nil => rfl
  | cons w rest ih =>
    simp only [List.map_cons, intSum, List.foldr_cons, List.flatten_cons,
      List.length_append]
    show (w.length : Int) + List.foldr (· + ·) 0
      (rest.map (fun b => ((b.length : Int)))) = _
    have : List.foldr (· + ·) 0 (rest.map (fun b => ((b.length : Int)))) =
        ((rest.flatten.length : Int)) := ih
    rw [this]
    push_cast
    ring

/-- When every path already equals its normal form, validation returns
the file list unchanged. -/
theorem validateFilesLoop_paths_id (files : List FileEntry) :
    ∀ seen total r,
    (∀ f ∈ files, normalizeManifestFilePath f.path = .ok f.path) →
    validateFilesLoop files seen total = .ok r → r.1 = files := by
  induction files with
  | nil =>
    intro seen total r _ h
    simp only [validateFilesLoop, Except.ok.injEq] at h
    rw [← h]
  | cons entry rest ih =>
    intro seen total r hid h
    unfold validateFilesLoop at h
    split at h
    · simp at h
    · rename_i np hnp
      split at h
      · simp at h
      · split at h
        · simp at h
        · split at h
          · simp at h
          · split at h
            · simp at h
            · split at h
              · simp at h
              · rename_i rest2 t hrec
                have hnp2 : np = entry.path := by
                  have := hid entry (List.mem_cons_self _ _)
                  rw [this] at hnp
                  cases hnp
                  rfl
                have hrest : rest2 = rest :=
                  ih (np :: seen) (total + entry.size) (rest2, t)
                    (fun f hf => hid f (List.mem_cons_of_mem _ hf)) hrec
                simp only [Except.ok.injEq] at h
                rw [← h, hnp2, hrest]

/-- The manifest the client assembles from a tree with clean, distinct
paths and well-formed hashes passes server-side validation unchanged. -/
theorem validateManifestFiles_buildManifest (hfn : Bytes → String)
    (root : Tree) (slug version platform channel : String)
    (hnorm : ∀ pc ∈ root, normalizeManifestFilePath pc.1 = .ok pc.1)
    (hnodup : (root.map Prod.fst).Nodup)
    (hhexchunks : ∀ bs ∈ allChunks root, sha256Ok (hfn bs) = true)
    (hhexfiles : ∀ pc ∈ root, sha256Ok (hfn pc.2) = true) :
    validateManifestFiles (buildManifest hfn root slug version platform channel) =
      .ok (buildManifest hfn root slug version platform channel) := by
  have hfiles : (buildManifest hfn root slug version platform channel).files =
      root.map (fun pc =>
        ({ path := pc.1, size := ((pc.2.length : Int)), sha256 := hfn pc.2,
           chunks := chunkInfosFrom hfn 0 (chunkFile pc.2) } : FileEntry)) := rfl
  have hall : ∀ f ∈ (buildManifest hfn root slug version platform channel).files,
      specFileOk f := by
    rw [hfiles]
    intro f hf
    obtain ⟨pc, hpc, hfe⟩ := List.mem_map.mp hf
    subst hfe
    refine ⟨?_, ?_, ?_, ?_, ?_⟩
    · show (normalizeManifestFilePath pc.1).isOk = true
      rw [hnorm pc hpc]
      rfl
    · exact hhexfiles pc hpc
    · intro c hc
      obtain ⟨w, hw, hsha, hsz⟩ := chunkInfosFrom_mem hfn (chunkFile pc.2) 0 c hc
      refine ⟨?_, ?_⟩
      · rw [hsha]
        exact hhexchunks w (List.mem_flatMap_of_mem hpc hw)
      · rw [hsz]
        exact Int.natCast_nonneg _
    · show chunkOffsets _ = offsetsFrom 0 (chunkSizes _)
      unfold chunkOffsets chunkSizes
      exact chunkInfosFrom_offsets hfn (chunkFile pc.2) 0
    · show ((pc.2.length : Int)) = intSum (chunkSizes _)
      unfold chunkSizes
      show _ = intSum ((chunkInfosFrom hfn 0 (chunkFile pc.2)).map ChunkInfo.size)
      rw [chunkInfosFrom_sizes, intSum_map_length, chunkFile_flatten]
  have hnodup2 :
      ((buildManifest hfn root slug version platform channel).files.map npOf).Nodup := by
    rw [hfiles, List.map_map]
    have hmeq : root.map (npOf ∘ (fun pc =>
        ({ path := pc.1, size := ((pc.2.length : Int)), sha256 := hfn pc.2,
           chunks := chunkInfosFrom hfn 0 (chunkFile pc.2) } : FileEntry))) =
        root.map (fun pc => some pc.1) := by
      apply List.map_congr_left
      intro pc hpc
      show npOf _ = some pc.1
      unfold npOf
      show (normalizeManifestFilePath pc.1).toOption = some pc.1
      rw [hnorm pc hpc]
      rfl
    rw [hmeq]
    have : root.map (fun pc => some pc.1) = (root.map Prod.fst).map some := by
      rw [List.map_map]
      rfl
    rw [this]
    exact hnodup.map (Option.some_injective _)
  obtain ⟨files2, hloop⟩ := validateFilesLoop_ok_of
    (buildManifest hfn root slug version platform channel).files [] 0
    hall hnodup2 (by simp)
  have hfid : files2 =
      (buildManifest hfn root slug version platform channel).files := by
    have hid : ∀ f ∈ (buildManifest hfn root slug version platform channel).files,
        normalizeManifestFilePath f.path = .ok f.path := by
      rw [hfiles]
      intro f hf
      obtain ⟨pc, hpc, hfe⟩ := List.mem_map.mp hf
      subst hfe
      exact hnorm pc hpc
    exact validateFilesLoop_paths_id _ [] 0 _ hid hloop
  have htotal : (buildManifest hfn root slug version platform channel).total_size =
      (0 : Int) + intSum
        ((buildManifest hfn root slug version platform channel).files.map
          FileEntry.size) := by
    rw [hfiles, List.map_map]
    show intSum (root.map (fun pc => ((pc.2.length : Int)))) = _
    have : root.map (FileEntry.size ∘ (fun pc =>
        ({ path := pc.1, size := ((pc.2.length : Int)), sha256 := hfn pc.2,
           chunks := chunkInfosFrom hfn 0 (chunkFile pc.2) } : FileEntry))) =
        root.map (fun pc => ((pc.2.length : Int))) := rfl
    rw [this]
    ring
  unfold validateManifestFiles
  simp only [hloop]
  rw [if_neg (not_not.mpr htotal)]
  rw [hfid]

/-- A hash-verified upload always succeeds and only rewrites the chunk
disk, the write counter and the chunks table. -/
theorem uploadChunk_effect (hfn : Bytes → String) (s : ServerState)
    (u : AuthUser) (h : String) (b : Bytes)
    (hdev : requireDev u = .ok u) (hhex : sha256Ok h = true)
    (hmatch : hfn b = h) :
    (uploadChunk hfn s u h b).1 = .ok () ∧
    (uploadChunk hfn s u h b).2.chunkDisk = mapUpdate s.chunkDisk h b ∧
    (uploadChunk hfn s u h b).2.apps = s.apps ∧
    (uploadChunk hfn s u h b).2.builds = s.builds ∧
    (uploadChunk hfn s u h b).2.submissions = s.submissions ∧
    (uploadChunk hfn s u h b).2.purchases = s.purchases ∧
    (uploadChunk hfn s u h b).2.manifestFS = s.manifestFS := by
  cases hf : s.chunksTable.find? (fun r => r.hash == h) with
  | none =>
    rw [uploadChunk_insert hfn s u h b hdev hhex hmatch hf]
    exact ⟨rfl, rfl, rfl, rfl, rfl, rfl, rfl⟩
  | some row =>
    rw [uploadChunk_increment hfn s u h b row hdev hhex hmatch hf]
    exact ⟨rfl, rfl, rfl, rfl, rfl, rfl, rfl⟩

/-- The chunk-upload loop of `upload_folder`: uploading a list of
windows whose hashes are all marked missing succeeds, leaves each
window's bytes on disk under its hash (assuming no two distinct windows
collide), leaves other hashes untouched, and does not touch the
relational tables or the manifest store. -/
theorem uploadFold_ok (hfn : Bytes → String) (u : AuthUser)
    (missing : List String) (hdev : requireDev u = .ok u) :
    ∀ (l : List Bytes) (st : ServerState),
    (∀ bs ∈ l, sha256Ok (hfn bs) = true) →
    (∀ bs ∈ l, missing.contains (hfn bs) = true) →
    ∃ st2, (l.foldlM (fun st b =>
        if missing.contains (hfn b) then
          match uploadChunk hfn st u (hfn b) b with
          | (.error e, _) => .error e
          | (.ok _, st2) => pure st2
        else pure st) st : Except HTTPError ServerState) = .ok st2 ∧
      (∀ bs ∈ l, (∀ bs2 ∈ l, hfn bs2 = hfn bs → bs2 = bs) →
        st2.chunkDisk (hfn bs) = some bs) ∧
      (∀ hh, (∀ bs ∈ l, hfn bs ≠ hh) → st2.chunkDisk hh = st.chunkDisk hh) ∧
      st2.apps = st.apps ∧ st2.builds = st.builds ∧
      st2.submissions = st.submissions ∧ st2.purchases = st.purchases ∧
      st2.manifestFS = st.manifestFS := by
  intro l
  induction l with
  | nil =>
    intro st _ _
    exact ⟨st, rfl, by simp, fun hh _ => rfl, rfl, rfl, rfl, rfl, rfl⟩
  | cons b rest ih =>
    intro st hhex hmiss
    have hbhex := hhex b (List.mem_cons_self _ _)
    have hbmiss := hmiss b (List.mem_cons_self _ _)
    obtain ⟨hok1, hdisk1, hap1, hbu1, hsu1, hpu1, hfs1⟩ :=
      uploadChunk_effect hfn st u (hfn b) b hdev hbhex rfl
    obtain ⟨st3, hfold, ha, hb2, hap, hbu, hsu, hpu, hfs⟩ :=
      ih (uploadChunk hfn st u (hfn b) b).2
        (fun bs hbs => hhex bs (List.mem_cons_of_mem _ hbs))
        (fun bs hbs => hmiss bs (List.mem_cons_of_mem _ hbs))
    refine ⟨st3, ?_, ?_, ?_, ?_, ?_, ?_, ?_, ?_⟩
    · rw [List.foldlM_cons]
      rw [if_pos hbmiss]
      cases hup : uploadChunk hfn st u (hfn b) b with
      | mk r s2 =>
        rw [hup] at hok1
        simp only at hok1
        subst hok1
        show (pure s2 >>= _ : Except HTTPError ServerState) = .ok st3
        simp only [pure_bind]
        rw [hup] at hfold
        exact hfold
    · intro bs hbs huniq
      rcases List.mem_cons.mp hbs with hbs1 | hbs2
      · subst hbs1
        by_cases hin : ∃ bs2 ∈ rest, hfn bs2 = hfn bs
        · obtain ⟨bs2, hmem2, heq2⟩ := hin
          have hbs2eq : bs2 = bs :=
            huniq bs2 (List.mem_cons_of_mem _ hmem2) heq2
          subst hbs2eq
          exact ha bs2 hmem2 (fun x hx hex =>
            huniq x (List.mem_cons_of_mem _ hx) hex)
        · have hnone : ∀ x ∈ rest, hfn x ≠ hfn bs := by
            intro x hx hex
            exact hin ⟨x, hx, hex⟩
          rw [hb2 (hfn bs) hnone, hdisk1]
          simp [mapUpdate]
      · exact ha bs hbs2 (fun x hx hex =>
          huniq x (List.mem_cons_of_mem _ hx) hex)
    · intro hh hne
      rw [hb2 hh (fun bs hbs => hne bs (List.mem_cons_of_mem _ hbs)), hdisk1]
      have hbne : hfn b ≠ hh := hne b (List.mem_cons_self _ _)
      simp only [mapUpdate, beq_iff_eq]
      rw [if_neg (fun hcc => hbne hcc.symm)]
    · rw [hap, hap1]
    · rw [hbu, hbu1]
    · rw [hsu, hsu1]
    · rw [hpu, hpu1]
    · rw [hfs, hfs1]

/-- `uploadTree` on an empty chunk store: asks for the missing set (all
hashes), uploads every window, and afterwards every window's bytes sit
on disk under its hash; the relational tables and manifest store are
untouched. -/
theorem uploadTree_ok (hfn : Bytes → String) (s0 : ServerState) (u : AuthUser)
    (buildId : Int) (root : Tree) (b0 : BuildRow)
    (hdev : requireDev u = .ok u)
    (howner : requireBuildOwner s0 buildId u.userId = .ok b0)
    (hdisk : ∀ hh, s0.chunkDisk hh = none)
    (hhex : ∀ bs ∈ allChunks root, sha256Ok (hfn bs) = true)
    (hinj : ∀ b1 ∈ allChunks root, ∀ b2 ∈ allChunks root,
      hfn b1 = hfn b2 → b1 = b2) :
    ∃ st2, uploadTree hfn s0 u buildId root = .ok st2 ∧
      (∀ bs ∈ allChunks root, st2.chunkDisk (hfn bs) = some bs) ∧
      st2.apps = s0.apps ∧ st2.builds = s0.builds ∧
      st2.submissions = s0.submissions ∧ st2.purchases = s0.purchases ∧
      st2.manifestFS = s0.manifestFS := by
  have hallhex : ((allChunks root).map hfn).all (fun h => sha256Ok h) = true :=
    List.all_eq_true.mpr (by
      intro x hx
      obtain ⟨bs, hbs, hbx⟩ := List.mem_map.mp hx
      rw [← hbx]
      exact hhex bs hbs)
  have hmc : missingChunks s0 u buildId ((allChunks root).map hfn) =
      .ok ((allChunks root).map hfn) := by
    unfold missingChunks
    simp only [hdev, howner, hallhex]
    rw [if_neg (by simp)]
    congr 1
    exact List.filter_eq_self.mpr (by
      intro a _
      rw [hdisk a]
      rfl)
  unfold uploadTree
  simp only [hmc]
  obtain ⟨st2, hfold, ha, _, hap, hbu, hsu, hpu, hfs⟩ :=
    uploadFold_ok hfn u ((allChunks root).map hfn) hdev (allChunks root) s0 hhex
      (by
        intro bs hbs
        exact List.elem_iff.mpr (List.mem_map_of_mem hfn hbs))
  refine ⟨st2, hfold, ?_, hap, hbu, hsu, hpu, hfs⟩
  intro bs hbs
  exact ha bs hbs (fun x hx hex => hinj x hx bs hbs hex)

/-- Appending to a nonempty suffix gives a nonempty string. -/
theorem append_ne_empty_right (s t : String) (ht : t ≠ "") : s ++ t ≠ "" := by
  intro hc
  have hd := congrArg String.data hc
  rw [String.data_append] at hd
  have hts : t.data = [] := (List.append_eq_nil.mp hd).2
  apply ht
  cases t with
  | mk d =>
    cases hts
    rfl

/-- The deterministic manifest location is never the empty string. -/
theorem manifestRelPath_ne_empty (m : Manifest) : manifestRelPath m ≠ "" := by
  unfold manifestRelPath
  exact append_ne_empty_right _ _ (by decide)

/-- A valid slug is nonempty. -/
theorem slugOk_ne_empty {s : String} (h : slugOk s = true) : s ≠ "" := by
  intro hc
  subst hc
  exact absurd h (by decide)

/-- A valid version / platform / channel component is nonempty. -/
theorem compOk_ne_empty {s : String} (h : compOk s = true) : s ≠ "" := by
  intro hc
  subst hc
  exact absurd h (by decide)

/-- The download phase of install: downloading a list of windows via a
fetch function that serves each window's bytes under its hash yields a
data map holding every window under its hash and preserving the
accumulator elsewhere. -/
theorem buildDataMap_ok (hfn : Bytes → String)
    (fetch : String → Except HTTPError Bytes) :
    ∀ (l : List Bytes) (acc : String → Option Bytes),
    (∀ bs ∈ l, fetch (hfn bs) = .ok bs) →
    ∃ dm, buildDataMap hfn fetch (l.map hfn) acc = .ok dm ∧
      (∀ bs ∈ l, dm (hfn bs) = some bs) ∧
      (∀ hh, (∀ bs ∈ l, hfn bs ≠ hh) → dm hh = acc hh) := by
  intro l
  induction l with
  | nil =>
    intro acc _
    exact ⟨acc, rfl, by simp, fun hh _ => rfl⟩
  | cons b rest ih =>
    intro acc hfetch
    have hb := hfetch b (List.mem_cons_self _ _)
    obtain ⟨dm, hdm, ha, hb2⟩ := ih (mapUpdate acc (hfn b) b)
      (fun bs hbs => hfetch bs (List.mem_cons_of_mem _ hbs))
    refine ⟨dm, ?_, ?_, ?_⟩
    · simp only [List.map_cons, buildDataMap, downloadChunk, hb]
      rw [if_neg (by simp)]
      exact hdm
    · intro bs hbs
      rcases List.mem_cons.mp hbs with hbs1 | hbs2
      · subst hbs1
        by_cases hin : ∃ bs2 ∈ rest, hfn bs2 = hfn bs
        · obtain ⟨bs2, hmem2, heq2⟩ := hin
          have h2 := hfetch bs2 (List.mem_cons_of_mem _ hmem2)
          rw [heq2, hb] at h2
          have hbe : bs = bs2 := by
            simpa using h2
          have hra := ha bs2 hmem2
          rw [heq2] at hra
          rw [hra, hbe]
        · have hnone : ∀ x ∈ rest, hfn x ≠ hfn bs := fun x hx hex =>
            hin ⟨x, hx, hex⟩
          rw [hb2 (hfn bs) hnone]
          simp [mapUpdate]
      · exact ha bs hbs2
    · intro hh hne
      rw [hb2 hh (fun bs hbs => hne bs (List.mem_cons_of_mem _ hbs))]
      have hbne : hfn b ≠ hh := hne b (List.mem_cons_self _ _)
      simp only [mapUpdate, beq_iff_eq]
      rw [if_neg (fun hcc => hbne hcc.symm)]

/-- Looking every assembled chunk descriptor up in a data map that holds
each window under its hash recovers the window list. -/
theorem mapM_lookup (hfn : Bytes → String) (dm : String → Option Bytes) :
    ∀ (ws : List Bytes) (off : Int),
    (∀ w ∈ ws, dm (hfn w) = some w) →
    ((chunkInfosFrom hfn off ws).mapM (fun c =>
      match dm c.sha256 with
      | none => .error ⟨0, "KeyError"⟩
      | some b => .ok b) : Except HTTPError (List Bytes)) = .ok ws := by
  intro ws
  induction ws with
  | nil => intro off _; rfl
  | cons w rest ih =>
    intro off hall
    simp only [chunkInfosFrom, List.mapM_cons]
    have hw : dm (hfn w) = some w := hall w (List.mem_cons_self _ _)
    simp only [hw]
    rw [ih (off + (w.length : Int))
      (fun x hx => hall x (List.mem_cons_of_mem _ hx))]
    rfl

/-- The reassembly phase run over the files that `build_manifest`
produced for a tree with safe, round-tripping paths: every file is
written back byte-for-byte under its manifest path. -/
theorem reassembleFiles_ok (hfn : Bytes → String) (dm : String → Option Bytes) :
    ∀ (rootl : Tree),
    (∀ pc ∈ rootl, ∃ ps, safeOutputParts pc.1 = .ok ps ∧ joinSlash ps = pc.1) →
    (∀ pc ∈ rootl, ∀ w ∈ chunkFile pc.2, dm (hfn w) = some w) →
    reassembleFiles hfn dm (rootl.map (fun pc =>
      ({ path := pc.1, size := ((pc.2.length : Int)), sha256 := hfn pc.2,
         chunks := chunkInfosFrom hfn 0 (chunkFile pc.2) } : FileEntry))) =
      .ok rootl := by
  intro rootl
  induction rootl with
  | nil => intro _ _; rfl
  | cons pc rest ih =>
    intro hsafe hdm
    obtain ⟨ps, hps, hjoin⟩ := hsafe pc (List.mem_cons_self _ _)
    simp only [List.map_cons, reassembleFiles, hps]
    rw [mapM_lookup hfn dm (chunkFile pc.2) 0
      (hdm pc (List.mem_cons_self _ _))]
    simp only [chunkFile_flatten]
    rw [if_neg (by simp)]
    rw [ih (fun x hx => hsafe x (List.mem_cons_of_mem _ hx))
        (fun x hx => hdm x (List.mem_cons_of_mem _ hx))]
    rw [hjoin]

/-- C9: round-trip.  Chunking and uploading a build tree (the client's
manifest construction and chunk upload against the server's chunk
store), finalizing the build, and then reconstructing through the
client's install-from-manifest against the server's chunk endpoint
reproduces every file of the tree byte-for-byte under its manifest
path.  Hypotheses: the caller is the app's developer-owner, the single
draft build matches the upload coordinates, the store starts empty,
SHA-256 is collision-free on the tree's windows and yields well-formed
hex, and the tree's relative paths are clean, distinct and round-trip
through the client's output-path check. -/
theorem C9_roundtrip (hfn : Bytes → String) (root : Tree) (s0 : ServerState)
    (u : AuthUser) (slug version platform channel : String)
    (a : AppRow) (b : BuildRow)
    (hdev : requireDev u = .ok u)
    (happs : s0.apps = [a]) (hbuilds : s0.builds = [b])
    (hdisk0 : ∀ hh, s0.chunkDisk hh = none)
    (haid : a.id = b.appId) (haslug : a.slug = slug)
    (haowner : a.ownerUserId.getD 0 = u.userId)
    (hbver : b.version = version) (hbplat : b.platform = platform)
    (hbchan : b.channel = channel)
    (hslug : slugOk slug = true) (hver : compOk version = true)
    (hplat : compOk platform = true) (hchan : compOk channel = true)
    (hhexchunks : ∀ bs ∈ allChunks root, sha256Ok (hfn bs) = true)
    (hhexfiles : ∀ pc ∈ root, sha256Ok (hfn pc.2) = true)
    (hinj : ∀ b1 ∈ allChunks root, ∀ b2 ∈ allChunks root,
      hfn b1 = hfn b2 → b1 = b2)
    (hnorm : ∀ pc ∈ root, normalizeManifestFilePath pc.1 = .ok pc.1)
    (hsafe : ∀ pc ∈ root, ∃ ps, safeOutputParts pc.1 = .ok ps ∧
      joinSlash ps = pc.1)
    (hnodup : (root.map Prod.fst).Nodup) :
    ∃ s1 s2,
      uploadTree hfn s0 u b.id root = .ok s1 ∧
      finalizeBuild s1 u b.id
        (buildManifest hfn root slug version platform channel) =
        (.ok (manifestRelPath
          (buildManifest hfn root slug version platform channel)), s2) ∧
      installFromManifest hfn
        (fun h => getChunk s2 h slug version platform channel u)
        (buildManifest hfn root slug version platform channel) = .ok root := by
  have hMapp : (buildManifest hfn root slug version platform channel).app =
    slug := rfl
  have hMver : (buildManifest hfn root slug version platform channel).version =
    version := rfl
  have hMplat : (buildManifest hfn root slug version platform channel).platform =
    platform := rfl
  have hMchan : (buildManifest hfn root slug version platform channel).channel =
    channel := rfl
  have hro0 : requireBuildOwner s0 b.id u.userId = .ok b := by
    unfold requireBuildOwner
    rw [hbuilds, happs]
    have hf1 : [b].find? (fun x => x.id == b.id) = some b := by simp
    simp only [hf1]
    have hf2 : [a].find? (fun x => x.id == b.appId) = some a := by simp [haid]
    simp only [hf2]
    rw [if_neg (by rw [haowner]; simp)]
  obtain ⟨s1, hup, hdisk1, hap1, hbu1, hsub1, hpur1, hfs1⟩ :=
    uploadTree_ok hfn s0 u b.id root b hdev hro0 hdisk0 hhexchunks hinj
  have hval := validateManifestFiles_buildManifest hfn root slug version
    platform channel hnorm hnodup hhexchunks hhexfiles
  have hro1 : requireBuildOwner s1 b.id u.userId = .ok b := by
    unfold requireBuildOwner
    rw [hbu1, hbuilds, hap1, happs]
    have hf1 : [b].find? (fun x => x.id == b.id) = some b := by simp
    simp only [hf1]
    have hf2 : [a].find? (fun x => x.id == b.appId) = some a := by simp [haid]
    simp only [hf2]
    rw [if_neg (by rw [haowner]; simp)]
  have hfin : finalizeBuild s1 u b.id
      (buildManifest hfn root slug version platform channel) =
      (.ok (manifestRelPath (buildManifest hfn root slug version platform channel)),
        finalizedState s1 u b.id
          (buildManifest hfn root slug version platform channel)) := by
    unfold finalizeBuild
    simp only [hdev]
    rw [if_neg (by rw [hMapp, hslug]; simp)]
    rw [if_neg (by rw [hMver, hver]; simp)]
    rw [if_neg (by rw [hMplat, hplat]; simp)]
    rw [if_neg (by rw [hMchan, hchan]; simp)]
    simp only [hval, hro1]
    have hfa : s1.apps.find? (fun x => x.id == b.appId) = some a := by
      rw [hap1, happs]
      simp [haid]
    simp only [hfa]
    rw [if_neg (by rw [hMapp, haslug]; simp)]
    rfl
  refine ⟨s1, finalizedState s1 u b.id
    (buildManifest hfn root slug version platform channel), hup, hfin, ?_⟩
  have hS2b : (finalizedState s1 u b.id
      (buildManifest hfn root slug version platform channel)).builds =
      [{ b with status := "ready", manifestUrl := some (manifestRelPath
        (buildManifest hfn root slug version platform channel)) }] := by
    show s1.builds.map _ = _
    rw [hbu1, hbuilds]
    simp
  have happ2 : (finalizedState s1 u b.id
      (buildManifest hfn root slug version platform channel)).apps = [a] := by
    show s1.apps = [a]
    rw [hap1, happs]
  have hrel : manifestRelForBuild
      (finalizedState s1 u b.id
        (buildManifest hfn root slug version platform channel))
      slug version platform channel =
      .ok (manifestRelPath (buildManifest hfn root slug version platform channel)) := by
    unfold manifestRelForBuild
    rw [if_neg (by rw [hslug]; simp)]
    rw [if_neg (by rw [hver]; simp)]
    rw [if_neg (by rw [hplat]; simp)]
    rw [if_neg (by rw [hchan]; simp)]
    rw [hS2b, happ2]
    simp [List.filter, List.foldl, latestById, hbver, hbplat, hbchan, haid,
      haslug, beq_eq_false_iff_ne.mpr (manifestRelPath_ne_empty
        (buildManifest hfn root slug version platform channel))]
  have hfs2 : (finalizedState s1 u b.id
      (buildManifest hfn root slug version platform channel)).manifestFS
      (manifestRelPath (buildManifest hfn root slug version platform channel)) =
      some (buildManifest hfn root slug version platform channel) := by
    show mapUpdate s1.manifestFS _ _ _ = _
    simp [mapUpdate]
  have hload : loadReadyManifest
      (finalizedState s1 u b.id
        (buildManifest hfn root slug version platform channel))
      slug platform channel (some version) =
      .ok (buildManifest hfn root slug version platform channel,
        manifestRelPath (buildManifest hfn root slug version platform channel)) := by
    unfold loadReadyManifest
    simp only [hrel, hfs2]
  have haccess : requireDownloadAccess
      (finalizedState s1 u b.id
        (buildManifest hfn root slug version platform channel)) slug u =
      .ok ⟨a.id, a.ownerUserId.getD 0, a.isApproved⟩ := by
    unfold requireDownloadAccess
    rw [if_neg (by rw [hslug]; simp)]
    rw [happ2]
    simp [List.find?, haslug, haowner]
  have hcont : ∀ bs ∈ allChunks root,
      manifestContainsChunk (buildManifest hfn root slug version platform channel)
        (hfn bs) = true := by
    intro bs hbs
    obtain ⟨pc, hpc, hw⟩ := List.mem_flatMap.mp hbs
    unfold manifestContainsChunk
    apply List.any_eq_true.mpr
    refine ⟨(⟨pc.1, ((pc.2.length : Int)), hfn pc.2,
      chunkInfosFrom hfn 0 (chunkFile pc.2)⟩ : FileEntry), ?_, ?_⟩
    · exact List.mem_map_of_mem _ hpc
    · apply List.any_eq_true.mpr
      have hmem : hfn bs ∈
          (chunkInfosFrom hfn 0 (chunkFile pc.2)).map ChunkInfo.sha256 := by
        rw [chunkInfosFrom_sha]
        exact List.mem_map_of_mem hfn hw
      obtain ⟨c, hc, hcs⟩ := List.mem_map.mp hmem
      exact ⟨c, hc, by simp [hcs]⟩
  have hgets : ∀ bs ∈ allChunks root,
      getChunk (finalizedState s1 u b.id
        (buildManifest hfn root slug version platform channel))
        (hfn bs) slug version platform channel u = .ok bs := by
    intro bs hbs
    unfold getChunk
    rw [if_neg (by rw [hhexchunks bs hbs]; simp)]
    simp only [haccess, hload]
    rw [if_neg (by rw [hcont bs hbs]; simp)]
    have hdk : (finalizedState s1 u b.id
        (buildManifest hfn root slug version platform channel)).chunkDisk
        (hfn bs) = some bs := hdisk1 bs hbs
    simp only [hdk]
  obtain ⟨dm, hdm, hdma, _⟩ := buildDataMap_ok hfn
    (fun h => getChunk (finalizedState s1 u b.id
      (buildManifest hfn root slug version platform channel))
      h slug version platform channel u)
    (allChunks root) (fun _ => none) hgets
  have hch : (buildManifest hfn root slug version platform channel).files.flatMap
      (fun f => f.chunks.map ChunkInfo.sha256) = (allChunks root).map hfn := by
    show (root.map (fun pc =>
      ({ path := pc.1, size := ((pc.2.length : Int)), sha256 := hfn pc.2,
         chunks := chunkInfosFrom hfn 0 (chunkFile pc.2) } : FileEntry))).flatMap
      (fun f => f.chunks.map ChunkInfo.sha256) =
      (root.flatMap (fun pc => chunkFile pc.2)).map hfn
    rw [List.flatMap_def, List.flatMap_def, List.map_flatten, List.map_map,
      List.map_map]
    congr 1
    apply List.map_congr_left
    intro pc hpc
    simp only [Function.comp]
    exact chunkInfosFrom_sha hfn (chunkFile pc.2) 0
  unfold installFromManifest
  rw [if_neg (by rw [hMapp]; simpa using slugOk_ne_empty hslug)]
  rw [if_neg (by rw [hMver]; simpa using compOk_ne_empty hver)]
  simp only [hch, hdm]
  exact reassembleFiles_ok hfn dm root hsafe
    (fun pc hpc w hw => hdma w (List.mem_flatMap.mpr ⟨pc, hpc, hw⟩))

/-- Witness for C9 at a one-file tree against the fixture developer,
app and draft build. -/
theorem C9_witness :
    ∃ s1 s2,
      uploadTree fxConstHashA fxStateC5 fxDev fxBuildDraft.id
        [("f", [1, 2, 3])] = .ok s1 ∧
      finalizeBuild s1 fxDev fxBuildDraft.id
        (buildManifest fxConstHashA [("f", [1, 2, 3])]
          "game" "1.0.0" "windows" "stable") =
        (.ok (manifestRelPath (buildManifest fxConstHashA [("f", [1, 2, 3])]
          "game" "1.0.0" "windows" "stable")), s2) ∧
      installFromManifest fxConstHashA
        (fun h => getChunk s2 h "game" "1.0.0" "windows" "stable" fxDev)
        (buildManifest fxConstHashA [("f", [1, 2, 3])]
          "game" "1.0.0" "windows" "stable") = .ok [("f", [1, 2, 3])] :=
  by
  have hcf : chunkFile ([1, 2, 3] : Bytes) = [[1, 2, 3]] := by
    rw [chunkFile, chunkFile]
    decide
  have hall : allChunks [("f", [1, 2, 3])] = [[1, 2, 3]] := by
    simp [allChunks, hcf]
  exact C9_roundtrip fxConstHashA [("f", [1, 2, 3])] fxStateC5 fxDev
    "game" "1.0.0" "windows" "stable" fxApp fxBuildDraft
    (by decide) rfl rfl (fun _ => rfl) rfl rfl rfl rfl rfl rfl
    (by decide) (by decide) (by decide) (by decide)
    (by rw [hall]; decide)
    (by decide)
    (by rw [hall]; decide)
    (by decide)
    (by
      intro pc hpc
      simp only [List.mem_singleton] at hpc
      subst hpc
      exact ⟨["f"], by decide, by decide⟩)
    (by decide)

end IndieHain
